import Mathlib

/-!
Verification of the CLIR ingestion pipeline (Module A).

This file gives a shallow embedding of the repository's source files

  * `Module A/indexing/build_index.py`                      (corpus consumer)
  * `Module A/news_crawler/.../daily_sun_crawler.py`        (DailySunCrawler)
  * `Module_A/news_crawler/.../kalerkantho_crawler.py`      (KalerKanthoCrawler)
  * `Module_A/news_crawler/.../newage_crawler.py`           (NewAgeBDCrawler)
  * `Module_A/news_crawler/.../prothomalo_bangladesh.py`    (ProthomAloBangladeshSpider)

and proves or refutes the specification's claims about them.

External collaborators (HTTP, curl, BeautifulSoup extraction, Python's
`datetime.strptime`, the random jitter) are modelled as explicit function
parameters; everything the repository's own code does (loops, guards,
counters, dedup sets, file writes, retry logic, tokenisation, index
construction) is translated directly from the source.
-/

/- ===================================================================
   Small Python-style string utilities shared by several models.
   =================================================================== -/

/-- Python `str.lower()` (ASCII case mapping). -/
def pyLower (s : String) : String := String.mk (s.toList.map Char.toLower)

/-- Characters of a string with leading and trailing whitespace removed. -/
def pyStripChars (l : List Char) : List Char :=
  ((l.dropWhile Char.isWhitespace).reverse.dropWhile Char.isWhitespace).reverse

/-- Python `str.strip()`. -/
def pyStrip (s : String) : String := String.mk (pyStripChars s.toList)

/-- Accumulator pass of Python `str.split()`: break at whitespace runs,
dropping empty pieces. -/
def pySplitAux : List Char → List Char → List String
  | [], acc => if acc = [] then [] else [String.mk acc.reverse]
  | c :: cs, acc =>
    if c.isWhitespace then
      (if acc = [] then pySplitAux cs [] else String.mk acc.reverse :: pySplitAux cs [])
    else pySplitAux cs (c :: acc)

/-- Python `text.split()`: split on whitespace runs, dropping empty pieces. -/
def pySplit (s : String) : List String := pySplitAux s.toList []

/-- Python `' '.join(pieces)`. -/
def joinWithSpace : List String → String
  | [] => ""
  | [x] => x
  | x :: xs => x ++ " " ++ joinWithSpace xs

/-- Python `' '.join(text.split())`: collapse internal whitespace. Used by
`clean_html` in the KalerKantho crawler and the body normalisation of the
DailySun crawler. -/
def joinWords (s : String) : String :=
  joinWithSpace (pySplit s)

/-- Whether the character list starts with the given pattern. -/
def chStarts : List Char → List Char → Bool
  | [], _ => true
  | _ :: _, [] => false
  | p :: ps, c :: cs => p = c && chStarts ps cs

/-- Whether the pattern occurs anywhere in the character list. -/
def hasSubAux (needle : List Char) : List Char → Bool
  | [] => chStarts needle []
  | c :: cs => chStarts needle (c :: cs) || hasSubAux needle cs

/-- Python's `pat in s` substring test. Used for the
`"Most Popular Outspoken English Daily" in title` style checks. -/
def strContains (s pat : String) : Bool :=
  hasSubAux pat.toList s.toList

/-- Python `url.split('/')[-1]`: the suffix after the last slash. -/
def slugOf (s : String) : String :=
  String.mk ((s.toList.reverse.takeWhile (fun c => c ≠ '/')).reverse)

/-- Truthiness of an optional numeric field (`if n_id and start_at:`):
`None` and `0` are falsy in Python. -/
def optNatTruthy : Option Nat → Bool
  | none => false
  | some n => n != 0

/-- Truthiness of an optional string field: `None` and `""` are falsy. -/
def optStrTruthy : Option String → Bool
  | none => false
  | some s => s != ""

/- ===================================================================
   Corpus consumer: `Module A/indexing/build_index.py`.
   =================================================================== -/

/-- A character counted by Python's `\w` class, modelled for the ASCII
range: alphanumeric or underscore. (Other Unicode word characters outside
the ASCII and Bangla ranges are not modelled; no claim depends on them.) -/
def pyWordChar (c : Char) : Bool :=
  c.isAlphanum || c = '_'

/-- A character of the Bangla Unicode block `ঀ-৿`, which the
tokenizer's regex keeps intact. -/
def banglaChar (c : Char) : Bool :=
  decide (0x0980 ≤ c.toNat) && decide (c.toNat ≤ 0x09FF)

/-- A character survives `re.sub(r"[^\w\sঀ-৿]", " ", text)`
exactly when it is a word character, whitespace, or Bangla. -/
def keepChar (c : Char) : Bool :=
  pyWordChar c || c.isWhitespace || banglaChar c

/-- `tokenize(text, language)` from `build_index.py`: strip, lowercase for
English, replace punctuation by spaces (keeping Bangla), then split. -/
def tokenize (text language : String) : List String :=
  let t1 := pyStrip text
  let t2 := if language = "english" then pyLower t1 else t1
  let t3 := String.mk (t2.toList.map (fun c => if keepChar c then c else ' '))
  pySplit t3

/-- Association-list lookup by string key (models Python dict indexing for
the small maps the indexer builds). -/
def alookup {α : Type} (l : List (String × α)) (k : String) : Option α :=
  (l.find? (fun p => p.1 = k)).map (fun p => p.2)

/-- One `Counter` increment: bump the count of `t`, appending it with count
1 when absent (Python's `Counter` over a token list). -/
def bumpCount : List (String × Nat) → String → List (String × Nat)
  | [], t => [(t, 1)]
  | (k, n) :: rest, t =>
    if k = t then (k, n + 1) :: rest else (k, n) :: bumpCount rest t

/-- `Counter(tokens)` as an association list of term frequencies. -/
def pyCounter (tokens : List String) : List (String × Nat) :=
  tokens.foldl bumpCount []

/-- `postings[doc_id] = freq` on one term's posting list. -/
def setPosting : List (String × Nat) → String → Nat → List (String × Nat)
  | [], d, f => [(d, f)]
  | (k, v) :: rest, d, f =>
    if k = d then (d, f) :: rest else (k, v) :: setPosting rest d f

/-- `inverted_index[term][doc_id] = freq` on the whole index. -/
def setTerm : List (String × List (String × Nat)) → String → String → Nat →
    List (String × List (String × Nat))
  | [], t, d, f => [(t, [(d, f)])]
  | (k, ps) :: rest, t, d, f =>
    if k = t then (t, setPosting ps d f) :: rest else (k, ps) :: setTerm rest t d f

/-- The `for term, freq in tf.items(): inverted_index[term][doc_id] = freq`
loop of `build_index`. -/
def insertTF (idx : List (String × List (String × Nat))) (docId : String)
    (tf : List (String × Nat)) : List (String × List (String × Nat)) :=
  tf.foldl (fun a p => setTerm a p.1 docId p.2) idx

/-- Result of `json.loads` on one line, as far as `build_index` inspects it:
the `"body"` field of an object may be a string, absent, or present with a
non-string value; a non-object JSON value (list, number, string, ...) has
no `.get` method so `doc.get("body", "")` raises on it. -/
inductive PyField
  | str (s : String)
  | nonStr
deriving DecidableEq

/-- A parsed JSON value as consumed by `build_index` (see `PyField`). -/
inductive PyVal
  | obj (body : Option PyField)
  | nonObj
deriving DecidableEq

/-- One (already stripped) input line of the corpus file: blank, failing to
parse as JSON (`json.JSONDecodeError`), or parsing to a JSON value. -/
inductive CorpusLine
  | blank
  | bad
  | json (v : PyVal)
deriving DecidableEq

/-- Mutable state of the `build_index` loop. -/
structure IdxState where
  inverted_index : List (String × List (String × Nat))
  doc_lengths : List (String × Nat)
  total_docs : Nat
  skipped_lines : Nat
deriving DecidableEq

/-- Initial state of the `build_index` loop. -/
def idxInit : IdxState := ⟨[], [], 0, 0⟩

/-- The body of `build_index`'s `for line in f` loop on one line. Blank
lines are skipped without counting; a `json.JSONDecodeError` increments
`skipped_lines` and continues; any other exception (an `AttributeError`
from `doc.get` on a non-object, or from `text.strip()`/`text.lower()` on a
non-string body) is uncaught and aborts the whole run. -/
def buildStep (language : String) (s : IdxState) : CorpusLine → Except String IdxState
  | .blank => .ok s
  | .bad => .ok { s with skipped_lines := s.skipped_lines + 1 }
  | .json .nonObj => .error "AttributeError: value has no attribute get"
  | .json (.obj (some .nonStr)) => .error "AttributeError: body is not a string"
  | .json (.obj b) =>
    let text := match b with
      | some (.str t) => t
      | _ => ""
    let tokens := tokenize text language
    let doc_id := toString s.total_docs
    .ok { s with
      total_docs := s.total_docs + 1
      doc_lengths := s.doc_lengths ++ [(doc_id, tokens.length)]
      inverted_index := insertTF s.inverted_index doc_id (pyCounter tokens) }

/-- `build_index(language, corpus_path)` over the (already line-split and
stripped) contents of the corpus file. -/
def build_index (language : String) (lines : List CorpusLine) : Except String IdxState :=
  lines.foldlM (buildStep language) idxInit

/-- The summary statistics `build_index` returns (`stats` dict). -/
structure IdxStats where
  language : String
  total_documents : Nat
  skipped_lines : Nat
  vocabulary_size : Nat
  average_doc_length : Rat
deriving DecidableEq

/-- The `stats` dictionary computed at the end of `build_index`. -/
def idx_stats (language : String) (s : IdxState) : IdxStats :=
  { language := language
    total_documents := s.total_docs
    skipped_lines := s.skipped_lines
    vocabulary_size := s.inverted_index.length
    average_doc_length :=
      if s.total_docs > 0 then
        ((s.doc_lengths.map (fun p => p.2)).sum : Rat) / (s.total_docs : Rat)
      else 0 }

/-- A line on which `build_index` neither skips-and-continues nor crashes:
an object whose body is a string or absent. -/
def lineIsDoc : CorpusLine → Bool
  | .json (.obj none) => true
  | .json (.obj (some (.str _))) => true
  | _ => false

/-- A line that raises `json.JSONDecodeError`. -/
def lineIsBad : CorpusLine → Bool
  | .bad => true
  | _ => false

/-- A line `build_index` can process without an uncaught exception. -/
def lineGood : CorpusLine → Bool
  | .json .nonObj => false
  | .json (.obj (some .nonStr)) => false
  | _ => true

/- ===================================================================
   Shared crawler event vocabulary.
   =================================================================== -/

/-- Observable events of a sequential crawler run: a pagination list call,
the dispatch of a detail fetch for one candidate, and the persisting of one
accepted document (`δ` is the crawler's document type). -/
inductive CrawlEv (δ : Type)
  | listCall (page : Nat)
  | fetchEv (id : String)
  | writeEv (d : δ)
deriving DecidableEq

/-- The documents written in a trace, in order. -/
def writesOf {δ : Type} (t : List (CrawlEv δ)) : List δ :=
  t.filterMap (fun e => match e with | .writeEv d => some d | _ => none)

/-- Number of documents written in a trace (the crawler's collected count). -/
def writesCount {δ : Type} (t : List (CrawlEv δ)) : Nat :=
  (writesOf t).length

/-- The per-candidate detail-fetch dispatches of a trace, in order. -/
def fetchesOf {δ : Type} (t : List (CrawlEv δ)) : List String :=
  t.filterMap (fun e => match e with | .fetchEv u => some u | _ => none)

/-- `true` on list-call events. -/
def isListCall {δ : Type} : CrawlEv δ → Bool
  | .listCall _ => true
  | _ => false

/-- A trace segment containing no list call. -/
def noListCall {δ : Type} (t : List (CrawlEv δ)) : Bool :=
  t.all (fun e => !isListCall e)

/-- Every write keeps the running collected counter at or below `target`
(the counter starts at `c`, and is incremented by each write). -/
def collBounded {δ : Type} (target : Nat) : Nat → List (CrawlEv δ) → Bool
  | _, [] => true
  | c, .writeEv _ :: rest => decide (c + 1 ≤ target) && collBounded target (c + 1) rest
  | c, _ :: rest => collBounded target c rest

/-- Every detail fetch is dispatched while the running collected counter is
still strictly below `target`. -/
def fetchBelow {δ : Type} (target : Nat) : Nat → List (CrawlEv δ) → Bool
  | _, [] => true
  | c, .fetchEv _ :: rest => decide (c < target) && fetchBelow target c rest
  | c, .writeEv _ :: rest => fetchBelow target (c + 1) rest
  | c, .listCall _ :: rest => fetchBelow target c rest

/-- Every written document satisfies the boolean property `p`. -/
def allWrites {δ : Type} (p : δ → Bool) (t : List (CrawlEv δ)) : Bool :=
  (writesOf t).all p

/-- Decomposition of a paginated trace: each segment is one list call
followed by its per-item events. -/
def flattenSegs {δ : Type} (segs : List (Nat × List (CrawlEv δ))) : List (CrawlEv δ) :=
  (segs.map (fun s => CrawlEv.listCall s.1 :: s.2)).flatten

/- ===================================================================
   File-operation traces of the persistence sinks.
   =================================================================== -/

/-- File-level operations performed on a source's output file. -/
inductive FileOp (δ : Type)
  | openTrunc          -- `open(path, 'w')`
  | openApp            -- `open(path, 'a')`
  | writeOp (d : δ)    -- `f.write(json.dumps(doc) + "\n")`: one record, one line
  | flushOp            -- `f.flush()`
  | closeOp            -- leaving the `with` block (close flushes buffers)
  | removeOp           -- `os.remove(path)`
deriving DecidableEq

/-- Every written record is immediately followed by an explicit flush. -/
def flushedAfterEachWrite {δ : Type} : List (FileOp δ) → Bool
  | [] => true
  | .writeOp _ :: rest =>
    (match rest with
     | .flushOp :: _ => true
     | _ => false) && flushedAfterEachWrite rest
  | _ :: rest => flushedAfterEachWrite rest

/-- Every written record is immediately followed by a flush or by closing
the file (which also flushes). -/
def flushedOrClosedAfterEachWrite {δ : Type} : List (FileOp δ) → Bool
  | [] => true
  | .writeOp _ :: rest =>
    (match rest with
     | .flushOp :: _ => true
     | .closeOp :: _ => true
     | _ => false) && flushedOrClosedAfterEachWrite rest
  | _ :: rest => flushedOrClosedAfterEachWrite rest

/- ===================================================================
   NewAge crawler (`newage_crawler.py`): fetch client with retry/backoff.
   =================================================================== -/

/-- Outcome of one `session.get` attempt: an exception (network error,
timeout, connection reset) or an HTTP response with status, an optional
numeric `Retry-After` header, and a body text. -/
inductive HttpAttempt
  | netErr
  | resp (status : Nat) (retryAfter : Option Nat) (text : String)
deriving DecidableEq

/-- How `fetch_url` classifies one attempt: HTTP 429 takes the rate-limit
branch; `raise_for_status()` raises for every other status `>= 400`,
landing in the generic `except` branch together with network errors; any
other response returns its text. -/
inductive AttemptKind
  | success (text : String)
  | rateLimited (retryAfter : Option Nat)
  | failure
deriving DecidableEq

/-- Classification of one attempt outcome (see `AttemptKind`). -/
def classifyAttempt : HttpAttempt → AttemptKind
  | .netErr => .failure
  | .resp status ra text =>
    if status = 429 then .rateLimited ra
    else if 400 ≤ status then .failure
    else .success text

/-- The sleeps `fetch_url` performs between attempts: the 429 branch waits
`int(headers.get("Retry-After", 60))` seconds; the `except` branch waits
`backoff * (2 ** i) + random.uniform(0, 1)` seconds, recorded as the
deterministic base and the jitter term separately. -/
inductive NAFetchWait
  | retryAfter (secs : Nat)
  | backoff (base : Nat) (jitter : Rat)
deriving DecidableEq

/-- `backoff = 1` in `fetch_url`. -/
def naBackoffBase : Nat := 1

/-- Result of a whole `fetch_url` call: the returned value, the sleeps
performed, and how many HTTP attempts were made. -/
structure NAFetchResult where
  result : Option String
  waits : List NAFetchWait
  attempts : Nat
deriving DecidableEq

/-- The `for i in range(retries)` loop of `fetch_url`, over the list of
remaining attempt indices. On 429 it sleeps and continues (consuming the
attempt); on success it returns the text; on any other failure it returns
`None` if this was the last attempt and otherwise sleeps the exponential
backoff and retries. Falling off the loop returns `None`. -/
def na_fetch_go (env : Nat → HttpAttempt) (jitter : Nat → Rat) : List Nat → NAFetchResult
  | [] => ⟨none, [], 0⟩
  | i :: rest =>
    match classifyAttempt (env i) with
    | .success t => ⟨some t, [], 1⟩
    | .rateLimited ra =>
      let r := na_fetch_go env jitter rest
      ⟨r.result, .retryAfter (ra.getD 60) :: r.waits, r.attempts + 1⟩
    | .failure =>
      if rest = [] then ⟨none, [], 1⟩
      else
        let r := na_fetch_go env jitter rest
        ⟨r.result, .backoff (naBackoffBase * 2 ^ i) (jitter i) :: r.waits, r.attempts + 1⟩

/-- `fetch_url(session, url)` with `retries = 3`: attempts are indexed
0, 1, 2. `env i` is the outcome of attempt `i`, `jitter i` the value of
`random.uniform(0, 1)` drawn before retrying attempt `i`. -/
def na_fetch_url (env : Nat → HttpAttempt) (jitter : Nat → Rat) : NAFetchResult :=
  na_fetch_go env jitter [0, 1, 2]

/-- The sequence of wait durations ignoring the jitter term: the 429 wait
is its full duration, a backoff wait contributes its deterministic base. -/
def waitBase : NAFetchWait → Nat
  | .retryAfter s => s
  | .backoff b _ => b

/-- The deterministic bases of only the exponential-backoff waits. -/
def backoffBases (ws : List NAFetchWait) : List Nat :=
  ws.filterMap (fun w => match w with | .backoff b _ => some b | _ => none)

/-- `true` when the attempt classification is a success. -/
def kindIsSuccess : AttemptKind → Bool
  | .success _ => true
  | _ => false

/- ===================================================================
   Curl-based fetch of the DailySun and KalerKantho crawlers.
   =================================================================== -/

/-- Result of one `subprocess.run(curl ...)` invocation. -/
structure CurlResult where
  returncode : Int
  stdout : String
  stderr : String
deriving DecidableEq

/-- `fetch_url(url)` of `daily_sun_crawler.py` and `kalerkantho_crawler.py`
(the two functions are identical): run curl once, return `None` on a
non-zero exit code and the stdout otherwise. The second component counts
the curl invocations performed: there is no retry loop, so it is always 1,
whatever the outcome. -/
def curl_fetch_url (curlRuns : Nat → CurlResult) : Option String × Nat :=
  let result := curlRuns 0
  (if result.returncode ≠ 0 then none else some result.stdout, 1)

/- ===================================================================
   NewAge crawler: article extraction and the concurrent worker system.
   =================================================================== -/

/-- A document built by `parse_article` in `newage_crawler.py`. (The
redundant `data`/`html`/`tokens` fields of the Python dict are derived from
these and are not modelled separately.) -/
structure NADoc where
  url : String
  title : String
  date : String
  category : String
  body : String
deriving DecidableEq

/-- `parse_article(url, html, category)`: the BeautifulSoup selector logic
is abstracted into the extraction functions `titleOf`, `dateOf`, `bodyOf`;
the adapter's own guards are kept: a title containing the home-page slogan
means a redirect and yields `None`, and a missing or short body
(`if not body or len(body) < 100`) yields `None`. -/
def na_parse_article (titleOf dateOf bodyOf : String → String)
    (url html category : String) : Option NADoc :=
  let title := titleOf html
  if strContains title "Most Popular Outspoken English Daily" then none
  else
    let body := bodyOf html
    if body.length < 100 then none
    else some ⟨url, title, dateOf html, category, body⟩

/-- One queued unit of work for `process_article`: a candidate URL and its
category. -/
structure NATask where
  url : String
  cat : String
deriving DecidableEq

/-- Progress of one `process_article` coroutine. `start` is before the
early target check; `ready` is past it, waiting to acquire the lock for the
dedup check; `claimed` is past the dedup check (its URL is in
`visited_urls`), fetching; `got d` holds a successfully parsed document,
waiting to acquire the lock for the accept step; `finished` is returned. -/
inductive NAPhase
  | start
  | ready
  | claimed
  | got (d : NADoc)
  | finished
deriving DecidableEq

/-- Shared state of a NewAge crawl plus the phase of every worker. The
`counts` function models the `collected_counts` per-category dict,
`visited` the `visited_urls` set, and `accepted` the sequence of documents
written to the output file (with the task that produced each). -/
structure NASys where
  visited : List String
  counts : String → Nat
  accepted : List (NATask × NADoc)
  phases : Nat → NAPhase

/-- Initial state: nothing visited, all counts zero, no worker started. -/
def naInit : NASys :=
  { visited := [], counts := fun _ => 0, accepted := [], phases := fun _ => .start }

/-- A worker phase in which the worker holds a claim on its URL (it passed
the dedup check and has not yet finished). -/
def naActive : NAPhase → Prop
  | .claimed => True
  | .got _ => True
  | _ => False

instance (p : NAPhase) : Decidable (naActive p) := by
  unfold naActive; cases p <;> infer_instance

/-- Small-step transition of the NewAge worker pool. `tasks` is the fixed
task queue, `target` the per-category `target_count`, and `fp url cat` the
combined outcome of `fetch_url` followed by `parse_article` (`none` covers
both a failed fetch and a rejected parse). Steps of different workers
interleave arbitrarily; the two blocks guarded by `async with self.lock`
in `process_article` — the dedup check-and-insert, and the accept step
(recheck the cap, save the document, bump the count) — are single
transitions, exactly as the lock makes them atomic in the source. -/
inductive NAStep (tasks : List NATask) (target : Nat)
    (fp : String → String → Option NADoc) : NASys → NASys → Prop
  | earlyExit (s : NASys) (i : Nat) (h : i < tasks.length) :
      s.phases i = .start →
      target ≤ s.counts (tasks.get ⟨i, h⟩).cat →
      NAStep tasks target fp s { s with phases := Function.update s.phases i .finished }
  | earlyPass (s : NASys) (i : Nat) (h : i < tasks.length) :
      s.phases i = .start →
      s.counts (tasks.get ⟨i, h⟩).cat < target →
      NAStep tasks target fp s { s with phases := Function.update s.phases i .ready }
  | dedupHit (s : NASys) (i : Nat) (h : i < tasks.length) :
      s.phases i = .ready →
      (tasks.get ⟨i, h⟩).url ∈ s.visited →
      NAStep tasks target fp s { s with phases := Function.update s.phases i .finished }
  | dedupMiss (s : NASys) (i : Nat) (h : i < tasks.length) :
      s.phases i = .ready →
      (tasks.get ⟨i, h⟩).url ∉ s.visited →
      NAStep tasks target fp s
        { s with visited := (tasks.get ⟨i, h⟩).url :: s.visited
                 phases := Function.update s.phases i .claimed }
  | fetchFail (s : NASys) (i : Nat) (h : i < tasks.length) :
      s.phases i = .claimed →
      fp (tasks.get ⟨i, h⟩).url (tasks.get ⟨i, h⟩).cat = none →
      NAStep tasks target fp s { s with phases := Function.update s.phases i .finished }
  | fetchOk (s : NASys) (i : Nat) (h : i < tasks.length) (d : NADoc) :
      s.phases i = .claimed →
      fp (tasks.get ⟨i, h⟩).url (tasks.get ⟨i, h⟩).cat = some d →
      NAStep tasks target fp s { s with phases := Function.update s.phases i (.got d) }
  | acceptOk (s : NASys) (i : Nat) (h : i < tasks.length) (d : NADoc) :
      s.phases i = .got d →
      s.counts (tasks.get ⟨i, h⟩).cat < target →
      NAStep tasks target fp s
        { s with counts := Function.update s.counts (tasks.get ⟨i, h⟩).cat
                   (s.counts (tasks.get ⟨i, h⟩).cat + 1)
                 accepted := s.accepted ++ [(tasks.get ⟨i, h⟩, d)]
                 phases := Function.update s.phases i .finished }
  | acceptRej (s : NASys) (i : Nat) (h : i < tasks.length) (d : NADoc) :
      s.phases i = .got d →
      target ≤ s.counts (tasks.get ⟨i, h⟩).cat →
      NAStep tasks target fp s { s with phases := Function.update s.phases i .finished }

/-- States reachable from the initial state by any interleaving. -/
def NAReach (tasks : List NATask) (target : Nat)
    (fp : String → String → Option NADoc) (s : NASys) : Prop :=
  Relation.ReflTransGen (NAStep tasks target fp) naInit s

/-- The URLs of the accepted (persisted) documents, in write order. -/
def naAcceptedUrls (s : NASys) : List String :=
  s.accepted.map (fun td => td.1.url)

/- ===================================================================
   KalerKantho crawler (`kalerkantho_crawler.py`).
   =================================================================== -/

/-- One entry of the `newsData` list of a category page, as far as `crawl`
reads it: `n_id`, `start_at`, and the slug inside `cat_name` when present. -/
structure KKItem where
  n_id : Option Nat
  start_at : Option String
  cat_slug : Option String
deriving DecidableEq

/-- The `details` object of an article's `_next/data` JSON. -/
structure KKDetails where
  n_head : String
  n_details : String
deriving DecidableEq

/-- A document written by the KalerKantho crawler (the derived `tokens`
field is `body.split()` and is not modelled separately). -/
structure KKDoc where
  url : String
  title : String
  date : String
  category : String
  body : String
deriving DecidableEq

/-- Result of `datetime.strptime(date_str, "%Y-%m-%d %H:%M:%S")`. -/
structure KKDate where
  year : Nat
  month : Nat
  day : Nat
deriving DecidableEq

/-- `clean_html(html_content)`: empty input yields `""`; otherwise the
BeautifulSoup text extraction (scripts and styles removed, space
separator) is abstracted as `soupText` and the whitespace collapse
`' '.join(text.split())` is applied to its result. -/
def clean_html (soupText : String → String) (html : String) : String :=
  if html = "" then "" else joinWords (soupText html)

/-- External world of a KalerKantho run. -/
structure KKEnv where
  /-- `datetime.strptime` on a `start_at` value; `none` models `ValueError`. -/
  strptime : String → Option KKDate
  /-- BeautifulSoup text extraction inside `clean_html`. -/
  soupText : String → String
  /-- Fetching and JSON-parsing an article's `_next/data` URL for
  (category slug, date, `n_id`): `none` models a failed fetch, a JSON parse
  failure, or an empty `details` object. -/
  detailResp : String → KKDate → Nat → Option KKDetails
  /-- Fetching and JSON-parsing a category list page for (category, page):
  `none` models a failed fetch or a JSON parse failure; `some []` an empty
  `newsData` list. -/
  listResp : String → Nat → Option (List KKItem)

/-- Zero-padded day/month as in the f-string `{dt.month:02d}`. -/
def pad2 (n : Nat) : String :=
  if n < 10 then "0" ++ toString n else toString n

/-- `self.base_url` of the KalerKantho crawler. -/
def kk_base_url : String := "https://www.kalerkantho.com"

/-- The public article URL built by `fetch_article`. -/
def kk_public_url (slug : String) (dt : KKDate) (n_id : Nat) : String :=
  kk_base_url ++ "/online/" ++ slug ++ "/" ++ toString dt.year ++ "/" ++
    pad2 dt.month ++ "/" ++ pad2 dt.day ++ "/" ++ toString n_id

/-- `fetch_article(category_slug, date_str, n_id)`: parse the date (a
`ValueError` returns `None`), fetch the detail JSON (failure or empty
`details` returns `None`), then build the document. -/
def kk_fetch_article (env : KKEnv) (category_slug date_str : String) (n_id : Nat) :
    Option KKDoc :=
  match env.strptime date_str with
  | none => none
  | some dt =>
    match env.detailResp category_slug dt n_id with
    | none => none
    | some details =>
      some { url := kk_public_url category_slug dt n_id
             title := details.n_head
             date := date_str
             category := category_slug
             body := clean_html env.soupText details.n_details }

/-- The five category slugs hardcoded in `crawl`. -/
def kk_categories : List String :=
  ["national", "entertainment", "Islamic-lifestylie", "Politics", "lifestyle"]

/-- `category_target = 150`, hardcoded in `crawl` (note: this is not the
constructor's `target_count`). -/
def kk_category_target : Nat := 150

/-- The `for item in news_list` loop of `crawl`: before each item the cap
is checked (`break`); an item with truthy `n_id` and `start_at` gets a
detail fetch, and a successful `fetch_article` is written (with no
dedup check of any kind) and counted. Returns the events and the updated
per-category collected count. -/
def kk_items (env : KKEnv) (category : String) :
    List KKItem → Nat → List (CrawlEv KKDoc) × Nat
  | [], collected => ([], collected)
  | item :: rest, collected =>
    if kk_category_target ≤ collected then ([], collected)
    else
      let current_slug := if optStrTruthy item.cat_slug then item.cat_slug.getD "" else category
      if optNatTruthy item.n_id && optStrTruthy item.start_at then
        let nid := item.n_id.getD 0
        match kk_fetch_article env current_slug (item.start_at.getD "") nid with
        | none =>
          let (evs, c2) := kk_items env category rest collected
          (.fetchEv (toString nid) :: evs, c2)
        | some doc =>
          let (evs, c2) := kk_items env category rest (collected + 1)
          (.fetchEv (toString nid) :: .writeEv doc :: evs, c2)
      else
        kk_items env category rest collected

/-- The `while category_collected < category_target` pagination loop of
`crawl` for one category, with `fuel` bounding the number of list-page
iterations (the source's `page` counter is unbounded). A failed or
unparseable list fetch, or an empty `newsData`, breaks the loop. -/
def kk_cat_loop (env : KKEnv) (category : String) :
    Nat → Nat → Nat → List (CrawlEv KKDoc)
  | _, _, 0 => []
  | collected, page, fuel + 1 =>
    if kk_category_target ≤ collected then []
    else
      .listCall page ::
      match env.listResp category page with
      | none => []
      | some [] => []
      | some items =>
        let (evs, c2) := kk_items env category items collected
        evs ++ kk_cat_loop env category c2 (page + 1) fuel

/-- `crawl()`: all five categories written into one file opened with mode
`'w'`. The constructor's `target_count` parameter is carried but — exactly
as in the source — never consulted by `crawl`, which uses the hardcoded
`category_target` instead. -/
def kk_crawl (target_count : Nat) (env : KKEnv) (fuel : Nat) : List (CrawlEv KKDoc) :=
  (kk_categories.map (fun c => kk_cat_loop env c 0 1 fuel)).flatten

/-- `self.collected_count` at the end of a run: one increment per write,
summed over all categories. -/
def kk_collected_count (target_count : Nat) (env : KKEnv) (fuel : Nat) : Nat :=
  writesCount (kk_crawl target_count env fuel)

/-- The file operations a trace's writes produce when each `f.write` is
immediately followed by `f.flush()` (the DailySun write sites). -/
def writeFlushOps {δ : Type} (t : List (CrawlEv δ)) : List (FileOp δ) :=
  (t.map (fun e =>
    match e with
    | .writeEv d => [FileOp.writeOp d, FileOp.flushOp]
    | _ => [])).flatten

/-- The file operations a trace's writes produce when each `f.write` has no
accompanying flush (the KalerKantho write site). -/
def writeOnlyOps {δ : Type} (t : List (CrawlEv δ)) : List (FileOp δ) :=
  (t.map (fun e =>
    match e with
    | .writeEv d => [FileOp.writeOp d]
    | _ => [])).flatten

/-- File operations of a KalerKantho run: a truncating open, one write per
accepted document with no flush anywhere, and the close at the end of the
`with` block. -/
def kk_file_ops (target_count : Nat) (env : KKEnv) (fuel : Nat) : List (FileOp KKDoc) :=
  .openTrunc :: writeOnlyOps (kk_crawl target_count env fuel) ++ [.closeOp]

/- ===================================================================
   DailySun crawler (`daily_sun_crawler.py`).
   =================================================================== -/

/-- A document built by `fetch_article` in `daily_sun_crawler.py` (the
derived `tokens` field is `body.split()` and is not modelled separately). -/
structure DSDoc where
  url : String
  title : String
  date : String
  category : String
  body : String
deriving DecidableEq

/-- One entry of an AJAX `load more` batch, as far as `crawl` reads it. -/
structure DSItem where
  url : Option String
deriving DecidableEq

/-- The title, date and body that `fetch_article` extracts from a fetched
article page (the BeautifulSoup selector logic, abstracted). -/
structure DSArticle where
  title : String
  date : String
  body : String
deriving DecidableEq

/-- External world of a DailySun run. -/
structure DSEnv where
  /-- `get_category_metadata(category_url)`: the regex-extracted
  (`cat_id`, `lastID`) pair; a failed fetch or missing matches give `none`
  components. -/
  meta : String → Option Nat × Option Nat
  /-- The absolutized candidate article URLs scraped from the category
  page's anchors (already filtered by the `/slug/` + digits pattern), in
  document order. -/
  initLinks : String → List String
  /-- The extraction outcome of `fetch_article(url, slug)` for a URL:
  `none` models a failed fetch; otherwise the extracted fields (the body
  may be empty). -/
  article : String → Option DSArticle
  /-- The parsed AJAX response for (`cat_id`, `page`, `lastID`): `none`
  models an empty response or a JSON parse failure, `some []` the
  `if not data` break. -/
  listResp : Nat → Nat → Option Nat → Option (List DSItem)
  /-- `extract_id_from_url(url)`. -/
  extract_id : String → Option Nat

/-- The document dict `fetch_article(url, category_slug)` returns: its
`url` field is always the fetched URL and its `category` the slug. -/
def ds_build_doc (u category_slug : String) (a : DSArticle) : DSDoc :=
  { url := u, title := a.title, date := a.date, category := category_slug, body := a.body }

/-- The initial-page link loop of `crawl` (before AJAX pagination): each
unseen link is target-checked (`break` when the cap is reached), fetched,
and written only when the fetched article has a truthy (non-empty) body;
`seen_urls` and `lastID` are updated only for accepted articles. Returns
the events and the updated `seen_urls`, `category_collected`, `lastID`. -/
def ds_init (env : DSEnv) (target_count : Nat) (category_slug : String) :
    List String → List String → Nat → Option Nat →
    List (CrawlEv DSDoc) × List String × Nat × Option Nat
  | [], seen, collected, last_id => ([], seen, collected, last_id)
  | u :: rest, seen, collected, last_id =>
    if u ∈ seen then ds_init env target_count category_slug rest seen collected last_id
    else if target_count ≤ collected then ([], seen, collected, last_id)
    else
      match env.article u with
      | none =>
        let (evs, s2, c2, l2) :=
          ds_init env target_count category_slug rest seen collected last_id
        (.fetchEv u :: evs, s2, c2, l2)
      | some a =>
        if a.body = "" then
          let (evs, s2, c2, l2) :=
            ds_init env target_count category_slug rest seen collected last_id
          (.fetchEv u :: evs, s2, c2, l2)
        else
          let (evs, s2, c2, l2) :=
            ds_init env target_count category_slug rest (u :: seen) (collected + 1)
              (env.extract_id u)
          (.fetchEv u :: .writeEv (ds_build_doc u category_slug a) :: evs, s2, c2, l2)

/-- The `for item in data` loop of the AJAX phase: cap check (`break`),
skip falsy or already-seen URLs, otherwise mark `has_new`, fetch, and write
when the body is truthy. Returns the events, updated `seen_urls` and
count, and the `has_new` flag. -/
def ds_ajax_items (env : DSEnv) (target_count : Nat) (category_slug : String) :
    List DSItem → List String → Nat →
    List (CrawlEv DSDoc) × List String × Nat × Bool
  | [], seen, collected => ([], seen, collected, false)
  | item :: rest, seen, collected =>
    if target_count ≤ collected then ([], seen, collected, false)
    else if !optStrTruthy item.url then
      ds_ajax_items env target_count category_slug rest seen collected
    else
      let u := item.url.getD ""
      if u ∈ seen then ds_ajax_items env target_count category_slug rest seen collected
      else
        match env.article u with
        | none =>
          let (evs, s2, c2, _) :=
            ds_ajax_items env target_count category_slug rest seen collected
          (.fetchEv u :: evs, s2, c2, true)
        | some a =>
          if a.body = "" then
            let (evs, s2, c2, _) :=
              ds_ajax_items env target_count category_slug rest seen collected
            (.fetchEv u :: evs, s2, c2, true)
          else
            let (evs, s2, c2, _) :=
              ds_ajax_items env target_count category_slug rest (u :: seen) (collected + 1)
            (.fetchEv u :: .writeEv (ds_build_doc u category_slug a) :: evs, s2, c2, true)

/-- The `while category_collected < self.target_count` AJAX pagination loop
of `crawl`, `fuel` bounding the number of iterations (the source's `page`
counter is unbounded). The loop breaks on an empty or unparseable
response, on `if not data`, and on `if not has_new`; `lastID` is kept
constant across AJAX pages, as in the source. -/
def ds_ajax_loop (env : DSEnv) (target_count cat_id : Nat) (category_slug : String)
    (last_id : Option Nat) :
    List String → Nat → Nat → Nat → List (CrawlEv DSDoc)
  | _, _, _, 0 => []
  | seen, collected, page, fuel + 1 =>
    if target_count ≤ collected then []
    else
      .listCall page ::
      match env.listResp cat_id page last_id with
      | none => []
      | some [] => []
      | some items =>
        let (evs, s2, c2, has_new) :=
          ds_ajax_items env target_count category_slug items seen collected
        evs ++
          (if has_new then
            ds_ajax_loop env target_count cat_id category_slug last_id s2 c2 (page + 1) fuel
           else [])

/-- One category of `crawl()`: compute the slug (`cat_url.split('/')[-1]`),
resolve the category metadata (a missing `cat_id` skips the category), run
the initial-page loop with a fresh empty `seen_urls` and a zero count, then
the AJAX loop starting at page 1. -/
def ds_category (env : DSEnv) (target_count : Nat) (cat_url : String) (fuel : Nat) :
    List (CrawlEv DSDoc) :=
  let category_slug := slugOf cat_url
  match (env.meta cat_url).1 with
  | none => []
  | some cat_id =>
    let (evs, seen, collected, last_id1) :=
      ds_init env target_count category_slug (env.initLinks cat_url) [] 0 (env.meta cat_url).2
    evs ++ ds_ajax_loop env target_count cat_id category_slug last_id1 seen collected 1 fuel

/-- The six hardcoded category URLs of the DailySun crawler. -/
def ds_category_urls : List String :=
  ["https://www.daily-sun.com/law-&-Order",
   "https://www.daily-sun.com/sports",
   "https://www.daily-sun.com/diplomacy",
   "https://www.daily-sun.com/business",
   "https://www.daily-sun.com/sci-tech",
   "https://www.daily-sun.com/arts-culture"]

/-- `crawl()`: all six categories written into one file opened with mode
`'w'`; `category_collected` and `seen_urls` restart per category. -/
def ds_crawl (env : DSEnv) (target_count : Nat) (fuel : Nat) : List (CrawlEv DSDoc) :=
  (ds_category_urls.map (fun cu => ds_category env target_count cu fuel)).flatten

/-- `self.collected_count` at the end of a DailySun run. -/
def ds_collected_count (env : DSEnv) (target_count : Nat) (fuel : Nat) : Nat :=
  writesCount (ds_crawl env target_count fuel)

/-- File operations of a DailySun run: truncating open, then for every
accepted document a write immediately followed by `f.flush()`, and the
close at the end of the `with` block. -/
def ds_file_ops (env : DSEnv) (target_count : Nat) (fuel : Nat) : List (FileOp DSDoc) :=
  .openTrunc :: writeFlushOps (ds_crawl env target_count fuel) ++ [.closeOp]

/-- The `open`/`write`/`close` triple `save_document` performs for one
accepted document. -/
def naSaveOps (docs : List NADoc) : List (FileOp NADoc) :=
  (docs.map (fun d => [FileOp.openApp, .writeOp d, .closeOp])).flatten

/-- File operations of a NewAge run: `crawl` removes any previous output
file up front, and `save_document` opens the file in append mode, writes
one line and closes it (flushing) for every accepted document. -/
def na_file_ops (accepted : List NADoc) : List (FileOp NADoc) :=
  .removeOp :: naSaveOps accepted

/- ===================================================================
   ProthomAlo spider (`prothomalo_bangladesh.py`).
   =================================================================== -/

/-- A record yielded by the ProthomAlo spider (and persisted by scrapy's
feed exporter). `sectionField` models the `section` key. -/
structure PARec where
  title : Option String
  body : Option String
  url : Option String
  date : Option String
  language : String
  author : Option String
  tokens : Nat
  sectionField : String
  subcategory : String
  source : String
  content_type : String
deriving DecidableEq

/-- `parse_article(response)`: join the stripped non-blank paragraph texts
with single spaces and yield a `full-article` record — with no guard on the
body being non-empty. -/
def pa_parse_article (paragraphs : List String) (title author : Option String)
    (url : String) (date : Option String) (subcategory : String) : PARec :=
  let body := joinWithSpace ((paragraphs.map pyStrip).filter (fun p => p ≠ ""))
  { title := title
    body := some body
    url := some url
    date := date
    language := "bn"
    author := author
    tokens := (pySplit body).length
    sectionField := "bangladesh"
    subcategory := subcategory
    source := "Prothom Alo"
    content_type := "full-article" }

/-- The headline-only record yielded inside `parse_api` when a story has no
URL. -/
def pa_headline_rec (headline author : Option String) : PARec :=
  { title := headline
    body := none
    url := none
    date := none
    language := "bn"
    author := author
    tokens := match headline with
      | some h => (pySplit h).length
      | none => 0
    sectionField := "bangladesh"
    subcategory := "bangladesh"
    source := "Prothom Alo"
    content_type := "headline-only" }

/-- One entry of the API's `items` list, as far as `parse_api` reads it:
the stripped first headline when present, `story.get("url")`, and
`story.get("author-name")`. -/
structure PAEntry where
  headline : Option String
  story_url : Option String
  author : Option String
deriving DecidableEq

/-- Events of the ProthomAlo API pagination. -/
inductive PAEv
  | apiCall (offset : Nat)
  | yieldHeadline (r : PARec)
  | articleRequest (url : String)
deriving DecidableEq

/-- `self.limit = 10`. -/
def pa_limit : Nat := 10

/-- The `for entry in items` loop of `parse_api`: before each entry
`items_seen` is compared with `max_items` and a `return` aborts the whole
callback (skipping the next API request too); every processed entry
increments `items_seen` and yields either a headline-only record or a
request for the linked article. Returns the events, the updated
`items_seen`, and whether the `return` was taken. -/
def pa_entries (max_items : Nat) :
    List PAEntry → Nat → List PAEv × Nat × Bool
  | [], seen => ([], seen, false)
  | e :: rest, seen =>
    if max_items ≤ seen then ([], seen, true)
    else if optStrTruthy e.story_url then
      let (evs, s2, stopped) := pa_entries max_items rest (seen + 1)
      (.articleRequest (e.story_url.getD "") :: evs, s2, stopped)
    else
      let (evs, s2, stopped) := pa_entries max_items rest (seen + 1)
      (.yieldHeadline (pa_headline_rec e.headline e.author) :: evs, s2, stopped)

/-- The chain of `parse_api` callbacks: each API call's response either has
no items (`return`, ending pagination) or is processed by `pa_entries`,
and — unless that took the early `return` — schedules the next request at
`offset + limit`. `env offset` is the parsed `items` list of the response
at that offset; `fuel` bounds the (unbounded) chain length. -/
def pa_api_loop (max_items : Nat) (env : Nat → List PAEntry) :
    Nat → Nat → Nat → List PAEv
  | _, _, 0 => []
  | offset, seen, fuel + 1 =>
    .apiCall offset ::
    (if env offset = [] then []
     else
       let (evs, s2, stopped) := pa_entries max_items (env offset) seen
       evs ++ (if stopped then [] else pa_api_loop max_items env (offset + pa_limit) s2 fuel))

/-- The `item` events (headline yields and article requests) increment
`items_seen`; this predicate checks that each of them happens only while
`items_seen` is still strictly below `max_items`. -/
def paItemsBelow (max_items : Nat) : Nat → List PAEv → Bool
  | _, [] => true
  | seen, .apiCall _ :: rest => paItemsBelow max_items seen rest
  | seen, .yieldHeadline _ :: rest =>
    decide (seen < max_items) && paItemsBelow max_items (seen + 1) rest
  | seen, .articleRequest _ :: rest =>
    decide (seen < max_items) && paItemsBelow max_items (seen + 1) rest

/- ===================================================================
   Composition of fetch and parse in `process_article`, and concrete
   instances used to exercise the theorems below.
   =================================================================== -/

/-- The combined fetch-then-parse performed by `process_article`:
`fetch_url` yields HTML (or `None`), which `parse_article` turns into a
document (or `None`). `fetchRes url` is the final result of `fetch_url`
for that URL in this run. -/
def na_fp (fetchRes : String → Option String) (titleOf dateOf bodyOf : String → String) :
    String → String → Option NADoc :=
  fun url category => (fetchRes url).bind (fun html =>
    na_parse_article titleOf dateOf bodyOf url html category)

/-- Flattening of a ProthomAlo trace decomposed into API-call segments. -/
def paFlattenSegs (segs : List (Nat × List PAEv)) : List PAEv :=
  (segs.map (fun s => PAEv.apiCall s.1 :: s.2)).flatten

/-- A 100-character body, long enough to pass `parse_article`'s
`len(body) < 100` guard. -/
def naDemoBody : String := String.mk (List.replicate 100 'a')

/-- A one-task queue for exercising the NewAge worker system. -/
def naDemoTasks : List NATask := [⟨"u1", "c1"⟩]

/-- A fetch that always succeeds with the same page. -/
def naDemoFetchRes : String → Option String := fun _ => some "h"

/-- Extraction functions for the demo page. -/
def naDemoTitleOf : String → String := fun _ => "t"

/-- Date extraction for the demo page. -/
def naDemoDateOf : String → String := fun _ => "d"

/-- Body extraction for the demo page: 100 characters. -/
def naDemoBodyOf : String → String := fun _ => naDemoBody

/-- The demo fetch-then-parse pipeline. -/
def naDemoFp : String → String → Option NADoc :=
  na_fp naDemoFetchRes naDemoTitleOf naDemoDateOf naDemoBodyOf

/-- The document the demo pipeline produces for the demo task. -/
def naDemoDoc : NADoc := ⟨"u1", "t", "d", "c1", naDemoBody⟩

/-- Demo run, state after the worker passes the early target check. -/
def naDemoS1 : NASys :=
  { naInit with phases := Function.update naInit.phases 0 .ready }

/-- Demo run, state after the worker claims its URL in the dedup set. -/
def naDemoS2 : NASys :=
  { naDemoS1 with
    visited := "u1" :: naDemoS1.visited
    phases := Function.update naDemoS1.phases 0 .claimed }

/-- Demo run, state after the fetch and parse succeed. -/
def naDemoS3 : NASys :=
  { naDemoS2 with phases := Function.update naDemoS2.phases 0 (.got naDemoDoc) }

/-- Demo run, final state after the accept step. -/
def naDemoS4 : NASys :=
  { naDemoS3 with
    counts := Function.update naDemoS3.counts "c1" (naDemoS3.counts "c1" + 1)
    accepted := naDemoS3.accepted ++ [(⟨"u1", "c1"⟩, naDemoDoc)]
    phases := Function.update naDemoS3.phases 0 .finished }

/-- A KalerKantho world whose `national` category lists two fetchable
articles on page 1 and nothing anywhere else. -/
def kkEnvA : KKEnv :=
  { strptime := fun s => if s = "2024-01-01 00:00:00" then some ⟨2024, 1, 1⟩ else none
    soupText := fun s => s
    detailResp := fun _ _ _ => some ⟨"t", "x"⟩
    listResp := fun c p =>
      if c = "national" && p = 1 then
        some [⟨some 7, some "2024-01-01 00:00:00", none⟩,
              ⟨some 8, some "2024-01-01 00:00:00", none⟩]
      else none }

/-- A KalerKantho world whose `national` category lists the same article
(`n_id` 7) twice on page 1. -/
def kkEnvB : KKEnv :=
  { strptime := fun s => if s = "2024-01-01 00:00:00" then some ⟨2024, 1, 1⟩ else none
    soupText := fun s => s
    detailResp := fun _ _ _ => some ⟨"t", "x"⟩
    listResp := fun c p =>
      if c = "national" && p = 1 then
        some [⟨some 7, some "2024-01-01 00:00:00", none⟩,
              ⟨some 7, some "2024-01-01 00:00:00", none⟩]
      else none }

/-- Every attempt gets HTTP 404 (a non-transient status by the spec's
classification). -/
def naEnv404 : Nat → HttpAttempt := fun _ => .resp 404 none ""

/-- First attempt is rate-limited with `Retry-After: 100`, later attempts
hit network errors. -/
def naEnv429 : Nat → HttpAttempt :=
  fun i => if i = 0 then .resp 429 (some 100) "" else .netErr

/-- Every attempt succeeds. -/
def naEnvOk : Nat → HttpAttempt := fun _ => .resp 200 none "payload"

/-- Zero jitter. -/
def jitter0 : Nat → Rat := fun _ => 0

/-- A curl invocation that succeeds. -/
def curlRunsOk : Nat → CurlResult := fun _ => ⟨0, "payload", ""⟩

/-- A curl invocation that fails (transient network error: curl exits
non-zero), to observe that no retry happens. -/
def curlRunsFail : Nat → CurlResult := fun _ => ⟨7, "", "network error"⟩

/-- A small DailySun world: the sports category page links one article
with a non-empty body; AJAX page 1 lists one further article whose fetch
fails; AJAX page 2 is empty. -/
def dsEnvW : DSEnv :=
  { meta := fun cu => if cu = "https://www.daily-sun.com/sports" then (some 26, some 99)
      else (none, none)
    initLinks := fun cu =>
      if cu = "https://www.daily-sun.com/sports" then ["https://www.daily-sun.com/sports/10/x"]
      else []
    article := fun u =>
      if u = "https://www.daily-sun.com/sports/10/x" then some ⟨"T", "D", "B"⟩ else none
    listResp := fun _ p _ =>
      if p = 1 then some [⟨some "https://www.daily-sun.com/sports/11/y"⟩] else some []
    extract_id := fun _ => some 10 }

/-- A small ProthomAlo world: offset 0 returns one linked story, offset 10
returns nothing. -/
def paEnvW : Nat → List PAEntry :=
  fun o => if o = 0 then [⟨some "h", some "/story/1", none⟩] else []

/- ===================================================================
   Theorems. Helper lemmas come first, the claims' theorems are marked
   with their claim ids.
   =================================================================== -/

/-- Tokenizing the empty string yields no tokens, in any language. -/
theorem tokenize_empty (language : String) : tokenize "" language = [] := by
  by_cases h : language = "english" <;> simp [tokenize, h] <;> rfl

/-- Processing lines free of uncaught-exception shapes succeeds, counting
exactly the document lines into `total_docs` and the undecodable lines
into `skipped_lines`. -/
theorem buildRun_ok (language : String) (lines : List CorpusLine) (s : IdxState)
    (hgood : ∀ l ∈ lines, lineGood l = true) :
    ∃ st, lines.foldlM (buildStep language) s = Except.ok st ∧
      st.total_docs = s.total_docs + lines.countP lineIsDoc ∧
      st.skipped_lines = s.skipped_lines + lines.countP lineIsBad := by
  induction lines generalizing s with
  | nil => exact ⟨s, rfl, by simp, by simp⟩
  | cons l rest ih =>
    have hl : lineGood l = true := hgood l (List.mem_cons_self l rest)
    have hrest : ∀ x ∈ rest, lineGood x = true :=
      fun x hx => hgood x (List.mem_cons_of_mem l hx)
    cases l with
    | blank =>
      obtain ⟨st, h1, h2, h3⟩ := ih s hrest
      exact ⟨st, by simpa [buildStep] using h1, by simpa [lineIsDoc] using h2,
        by simpa [lineIsBad] using h3⟩
    | bad =>
      obtain ⟨st, h1, h2, h3⟩ := ih { s with skipped_lines := s.skipped_lines + 1 } hrest
      refine ⟨st, by simpa [buildStep] using h1, ?_, ?_⟩
      · simpa [lineIsDoc] using h2
      · simp [lineIsBad, List.countP_cons] at h3 ⊢
        omega
    | json v =>
      cases v with
      | nonObj => simp [lineGood] at hl
      | obj b =>
        cases b with
        | none =>
          obtain ⟨st, h1, h2, h3⟩ := ih
            { s with total_docs := s.total_docs + 1
                     doc_lengths := s.doc_lengths ++ [(toString s.total_docs, 0)] } hrest
          refine ⟨st, ?_, ?_, ?_⟩
          · simpa [buildStep, tokenize_empty] using h1
          · simp [lineIsDoc, List.countP_cons] at h2 ⊢
            omega
          · simpa [lineIsBad] using h3
        | some f =>
          cases f with
          | nonStr => simp [lineGood] at hl
          | str t =>
            obtain ⟨st, h1, h2, h3⟩ := ih
              { s with total_docs := s.total_docs + 1
                       doc_lengths := s.doc_lengths ++
                         [(toString s.total_docs, (tokenize t language).length)]
                       inverted_index := insertTF s.inverted_index (toString s.total_docs)
                         (pyCounter (tokenize t language)) } hrest
            refine ⟨st, ?_, ?_, ?_⟩
            · simpa [buildStep] using h1
            · simp [lineIsDoc, List.countP_cons] at h2 ⊢
              omega
            · simpa [lineIsBad] using h3

/-- C6 (confirmed). Round-trip of the output format: a Document whose
`body` is `"hello world"`, written by the sink as the JSON object line the
crawlers emit and read back by `build_index` as the sole line of an
English corpus, is assigned document id `"0"` with recorded length 2, and
the inverted index maps both `"hello"` and `"world"` to frequency 1 for
that id. -/
theorem c6_hello_world_round_trip :
    ((build_index "english"
        [CorpusLine.json (PyVal.obj (some (PyField.str "hello world")))]).toOption.map
      (fun st =>
        (alookup st.doc_lengths "0",
         (alookup st.inverted_index "hello").map (fun ps => alookup ps "0"),
         (alookup st.inverted_index "world").map (fun ps => alookup ps "0")))) =
      some (some 2, some (some 1), some (some 1)) := by
  decide

/-- C7 (confirmed). Malformed-line tolerance: a corpus file consisting of
100 record lines and one line that fails to parse as JSON — in any order —
is processed without aborting; the run skips the bad line, keeps reading,
and the statistics report 100 documents and a skipped-line count of 1. -/
theorem c7_malformed_line_tolerance (language : String) (lines : List CorpusLine)
    (hgood : ∀ l ∈ lines, lineGood l = true)
    (hdocs : lines.countP lineIsDoc = 100)
    (hbad : lines.countP lineIsBad = 1) :
    ∃ st, build_index language lines = Except.ok st ∧
      (idx_stats language st).total_documents = 100 ∧
      (idx_stats language st).skipped_lines = 1 := by
  obtain ⟨st, h1, h2, h3⟩ := buildRun_ok language lines idxInit hgood
  refine ⟨st, h1, ?_, ?_⟩
  · simp [idx_stats, h2, hdocs, idxInit]
  · simp [idx_stats, h3, hbad, idxInit]

set_option maxRecDepth 40000 in
/-- Witness for C7: a concrete corpus of 100 one-word records followed by
one undecodable line. -/
theorem c7_witness :
    ∃ st, build_index "english"
        (List.replicate 100 (CorpusLine.json (PyVal.obj (some (PyField.str "x")))) ++
          [CorpusLine.bad]) = Except.ok st ∧
      (idx_stats "english" st).total_documents = 100 ∧
      (idx_stats "english" st).skipped_lines = 1 := by
  refine c7_malformed_line_tolerance "english" _ ?_ ?_ ?_
  · decide
  · decide
  · decide

/-- C10 (corrected: restricted to object lines). A line parsing as a JSON
object whose `body` is absent or the empty string is still counted: it is
assigned the next document id, its recorded length is 0, and it leaves the
inverted index (and the skipped-line count) unchanged. -/
theorem c10_empty_body_line_counted (language : String) (s : IdxState)
    (b : Option PyField) (hb : b = none ∨ b = some (PyField.str "")) :
    buildStep language s (CorpusLine.json (PyVal.obj b)) =
      Except.ok { s with
        total_docs := s.total_docs + 1
        doc_lengths := s.doc_lengths ++ [(toString s.total_docs, 0)] } := by
  rcases hb with rfl | rfl <;>
    simp [buildStep, tokenize_empty, insertTF, pyCounter]

set_option maxRecDepth 4000 in
/-- Witness for C10: the empty-body line appended to a one-document state. -/
theorem c10_witness :
    buildStep "english" ⟨[], [("0", 2)], 1, 0⟩
        (CorpusLine.json (PyVal.obj (some (PyField.str "")))) =
      Except.ok ⟨[], [("0", 2), ("1", 0)], 2, 0⟩ := by
  have h := c10_empty_body_line_counted "english" ⟨[], [("0", 2)], 1, 0⟩
    (some (PyField.str "")) (Or.inr rfl)
  simpa using h

/-- Counterexample for C10 as stated: the line `[1, 2]` parses as
well-formed JSON, but `build_index` does not count it as a document — the
uncaught `AttributeError` from `doc.get` on a non-object aborts the whole
run instead. -/
theorem c10_counterexample_nonobject :
    build_index "english" [CorpusLine.json PyVal.nonObj] =
        Except.error "AttributeError: value has no attribute get" ∧
      (build_index "english" [CorpusLine.json PyVal.nonObj]).isOk = false :=
  ⟨rfl, rfl⟩

/- ===================================================================
   C4 / C8: the NewAge fetch client's retry and backoff behaviour.
   =================================================================== -/

/-- The fetch loop never makes more attempts than it has indices left. -/
theorem na_fetch_go_attempts_le (env : Nat → HttpAttempt) (jitter : Nat → Rat)
    (l : List Nat) : (na_fetch_go env jitter l).attempts ≤ l.length := by
  induction l with
  | nil => simp [na_fetch_go]
  | cons i rest ih =>
    cases h : classifyAttempt (env i) with
    | success t => simp [na_fetch_go, h]
    | rateLimited ra => simp [na_fetch_go, h]; omega
    | failure =>
      by_cases hr : rest = []
      · simp [na_fetch_go, h, hr]
      · simp [na_fetch_go, h, hr]
        omega

/-- The fetch loop returns `None` exactly when no remaining attempt
succeeds. -/
theorem na_fetch_go_result_none (env : Nat → HttpAttempt) (jitter : Nat → Rat)
    (l : List Nat) :
    (na_fetch_go env jitter l).result = none ↔
      ∀ i ∈ l, kindIsSuccess (classifyAttempt (env i)) = false := by
  induction l with
  | nil => simp [na_fetch_go]
  | cons i rest ih =>
    cases h : classifyAttempt (env i) with
    | success t => simp [na_fetch_go, h, kindIsSuccess]
    | rateLimited ra => simp [na_fetch_go, h, kindIsSuccess, ih]
    | failure =>
      by_cases hr : rest = []
      · subst hr
        simp [na_fetch_go, h, kindIsSuccess]
      · simp [na_fetch_go, h, hr, kindIsSuccess, ih]

/-- Every wait the fetch loop performs is accounted for by its attempt: a
429 attempt waits exactly the `Retry-After` header (or the default 60),
and a failure attempt waits the exponential backoff of its index. -/
theorem na_fetch_go_waits (env : Nat → HttpAttempt) (jitter : Nat → Rat)
    (l : List Nat) :
    ∀ w ∈ (na_fetch_go env jitter l).waits,
      (∃ i ∈ l, ∃ ra, classifyAttempt (env i) = .rateLimited ra ∧
        w = .retryAfter (ra.getD 60)) ∨
      (∃ i ∈ l, classifyAttempt (env i) = .failure ∧
        w = .backoff (naBackoffBase * 2 ^ i) (jitter i)) := by
  induction l with
  | nil => simp [na_fetch_go]
  | cons i rest ih =>
    intro w hw
    cases h : classifyAttempt (env i) with
    | success t => simp [na_fetch_go, h] at hw
    | rateLimited ra =>
      simp only [na_fetch_go, h] at hw
      rcases List.mem_cons.mp hw with rfl | hw2
      · exact Or.inl ⟨i, List.mem_cons_self i rest, ra, h, rfl⟩
      · rcases ih w hw2 with ⟨j, hj, ra2, hc, hwv⟩ | ⟨j, hj, hc, hwv⟩
        · exact Or.inl ⟨j, List.mem_cons_of_mem i hj, ra2, hc, hwv⟩
        · exact Or.inr ⟨j, List.mem_cons_of_mem i hj, hc, hwv⟩
    | failure =>
      by_cases hr : rest = []
      · simp [na_fetch_go, h, hr] at hw
      · simp only [na_fetch_go, h, hr, if_neg hr] at hw
        rcases List.mem_cons.mp hw with rfl | hw2
        · exact Or.inr ⟨i, List.mem_cons_self i rest, h, rfl⟩
        · rcases ih w hw2 with ⟨j, hj, ra2, hc, hwv⟩ | ⟨j, hj, hc, hwv⟩
          · exact Or.inl ⟨j, List.mem_cons_of_mem i hj, ra2, hc, hwv⟩
          · exact Or.inr ⟨j, List.mem_cons_of_mem i hj, hc, hwv⟩

/-- Along a sorted list of attempt indices, the exponential-backoff bases
of the performed waits are sorted: the base doubles with the attempt
index. -/
theorem na_fetch_go_backoff_sorted (env : Nat → HttpAttempt) (jitter : Nat → Rat)
    (l : List Nat) (hl : List.Sorted (· ≤ ·) l) :
    List.Sorted (· ≤ ·) (backoffBases (na_fetch_go env jitter l).waits) := by
  induction l with
  | nil => simp [na_fetch_go, backoffBases]
  | cons i rest ih =>
    rw [List.sorted_cons] at hl
    obtain ⟨hle, hrest⟩ := hl
    cases h : classifyAttempt (env i) with
    | success t => simp [na_fetch_go, h, backoffBases]
    | rateLimited ra =>
      simpa [na_fetch_go, h, backoffBases] using ih hrest
    | failure =>
      by_cases hr : rest = []
      · simp [na_fetch_go, h, hr, backoffBases]
      · have hgo : (na_fetch_go env jitter (i :: rest)).waits =
            NAFetchWait.backoff (naBackoffBase * 2 ^ i) (jitter i) ::
              (na_fetch_go env jitter rest).waits := by
          simp [na_fetch_go, h, hr]
        rw [show backoffBases (na_fetch_go env jitter (i :: rest)).waits =
            (naBackoffBase * 2 ^ i) :: backoffBases (na_fetch_go env jitter rest).waits from by
          simp [backoffBases, hgo]]
        rw [List.sorted_cons]
        refine ⟨?_, ih hrest⟩
        intro b hb
        obtain ⟨w, hwmem, hwb⟩ := List.mem_filterMap.mp hb
        rcases na_fetch_go_waits env jitter rest w hwmem with
          ⟨j, hj, ra2, hc, rfl⟩ | ⟨j, hj, hc, rfl⟩
        · simp at hwb
        · simp only [Option.some.injEq] at hwb
          subst hwb
          have : i ≤ j := hle j hj
          exact Nat.mul_le_mul_left naBackoffBase (Nat.pow_le_pow_right (by norm_num) this)

/-- C4 (corrected). Retry policy of the two fetch clients: the NewAge
`fetch_url` makes at most 3 HTTP attempts and returns `None` exactly when
none of its (up to) 3 attempts succeeds — it retries every failure class
alike, a 429 after waiting the advertised delay and any other failure
(network error, timeout, or any raising HTTP status, 4xx included) after
an exponential backoff; the DailySun/KalerKantho `fetch_url` performs
exactly one curl invocation and never retries, whatever the outcome. -/
theorem c4_retry_policy (env : Nat → HttpAttempt) (jitter : Nat → Rat)
    (curlRuns : Nat → CurlResult) :
    (na_fetch_url env jitter).attempts ≤ 3 ∧
    ((na_fetch_url env jitter).result = none ↔
      ∀ i, i < 3 → kindIsSuccess (classifyAttempt (env i)) = false) ∧
    (curl_fetch_url curlRuns).2 = 1 := by
  refine ⟨na_fetch_go_attempts_le env jitter [0, 1, 2], ?_, rfl⟩
  rw [na_fetch_url, na_fetch_go_result_none]
  constructor
  · intro h i hi
    interval_cases i
    · exact h 0 (by norm_num)
    · exact h 1 (by norm_num)
    · exact h 2 (by norm_num)
  · intro h i hi
    fin_cases hi
    · exact h 0 (by norm_num)
    · exact h 1 (by norm_num)
    · exact h 2 (by norm_num)

/-- Witness for C4: a run whose three attempts all get HTTP 404. -/
theorem c4_witness :
    (na_fetch_url naEnv404 jitter0).attempts ≤ 3 ∧
    ((na_fetch_url naEnv404 jitter0).result = none ↔
      ∀ i, i < 3 → kindIsSuccess (classifyAttempt (naEnv404 i)) = false) ∧
    (curl_fetch_url curlRunsOk).2 = 1 :=
  c4_retry_policy naEnv404 jitter0 curlRunsOk

/-- Counterexample for C4 as stated: HTTP 404 is a non-transient status
(4xx other than 429), yet `fetch_url` performs all 3 attempts on a
permanent 404 instead of failing after a single attempt. -/
theorem c4_counterexample_404_is_retried :
    (na_fetch_url naEnv404 jitter0).attempts = 3 ∧
    (na_fetch_url naEnv404 jitter0).result = none ∧
    ¬ (na_fetch_url naEnv404 jitter0).attempts = 1 := by
  refine ⟨rfl, rfl, ?_⟩
  decide

/-- C8 (corrected). Backoff behaviour of one `fetch_url` call: the
deterministic bases of the exponential-backoff delays (used after network
errors and raising HTTP statuses) are non-decreasing across the retries
when the `random.uniform(0, 1)` jitter term is ignored, the base doubling
with the attempt index; and every 429-induced wait is exactly the
server-supplied `Retry-After` value when present and exactly the default
60 seconds otherwise. A 429 wait is not part of the exponential schedule
and may be shorter than an earlier wait. -/
theorem c8_backoff_monotonicity (env : Nat → HttpAttempt) (jitter : Nat → Rat) :
    List.Sorted (· ≤ ·) (backoffBases (na_fetch_url env jitter).waits) ∧
    (∀ w ∈ (na_fetch_url env jitter).waits, ∀ s, w = NAFetchWait.retryAfter s →
      ∃ i, i < 3 ∧ ∃ ra, classifyAttempt (env i) = .rateLimited ra ∧ s = ra.getD 60) := by
  constructor
  · exact na_fetch_go_backoff_sorted env jitter [0, 1, 2] (by decide)
  · intro w hw s hws
    rcases na_fetch_go_waits env jitter [0, 1, 2] w hw with
      ⟨i, hi, ra, hc, hwv⟩ | ⟨i, hi, hc, hwv⟩
    · subst hws
      simp only [NAFetchWait.retryAfter.injEq] at hwv
      refine ⟨i, ?_, ra, hc, hwv⟩
      have h3 : i = 0 ∨ i = 1 ∨ i = 2 := by simpa using hi
      omega
    · subst hws
      simp at hwv

/-- Witness for C8: the all-404 run performs two backoff waits with bases
1 and 2. -/
theorem c8_witness :
    List.Sorted (· ≤ ·) (backoffBases (na_fetch_url naEnv404 jitter0).waits) ∧
    (∀ w ∈ (na_fetch_url naEnv404 jitter0).waits, ∀ s, w = NAFetchWait.retryAfter s →
      ∃ i, i < 3 ∧ ∃ ra, classifyAttempt (naEnv404 i) = .rateLimited ra ∧ s = ra.getD 60) :=
  c8_backoff_monotonicity naEnv404 jitter0

/-- Counterexample for C8 as stated: a fetch whose first attempt is
rate-limited with `Retry-After: 100` and whose second attempt hits a
network error waits 100 seconds and then only 2 seconds (plus jitter) —
the successive delays of one failing fetch are not non-decreasing even
ignoring jitter, because the honored server delay does not participate in
the exponential schedule. -/
theorem c8_counterexample_decreasing_delays :
    (na_fetch_url naEnv429 jitter0).waits.map waitBase = [100, 2] ∧
    ¬ List.Sorted (· ≤ ·) ((na_fetch_url naEnv429 jitter0).waits.map waitBase) := by
  constructor
  · rfl
  · intro h
    rw [show (na_fetch_url naEnv429 jitter0).waits.map waitBase = [100, 2] from rfl] at h
    rw [List.sorted_cons] at h
    have := h.1 2 (by simp)
    omega

/- ===================================================================
   C5: persistence-sink behaviour.
   =================================================================== -/

/-- Write/flush pairs keep the flush-after-every-write property of
whatever follows them. -/
theorem flushed_writeFlushOps {δ : Type} (evs : List (CrawlEv δ)) (tail : List (FileOp δ)) :
    flushedAfterEachWrite (writeFlushOps evs ++ tail) = flushedAfterEachWrite tail := by
  induction evs with
  | nil => rfl
  | cons e rest ih =>
    cases e with
    | listCall p => simpa [writeFlushOps, flushedAfterEachWrite] using ih
    | fetchEv u => simpa [writeFlushOps, flushedAfterEachWrite] using ih
    | writeEv d => simpa [writeFlushOps, flushedAfterEachWrite] using ih

/-- Each `save_document` triple closes (and hence flushes) right after its
write. -/
theorem na_save_ops_flushed (docs : List NADoc) :
    flushedOrClosedAfterEachWrite (naSaveOps docs) = true := by
  induction docs with
  | nil => rfl
  | cons d rest ih => simpa [naSaveOps, flushedOrClosedAfterEachWrite] using ih

/-- C5 (corrected). Sink behaviour per source: the DailySun run truncates
its output file at the start and explicitly flushes immediately after
every record write; the NewAge run deletes the previous output file at the
start and reopens/append-writes/closes the file per record, so every write
is flushed by the following close; the KalerKantho run truncates its file
at the start — but (see the counterexample) it never flushes between
writes. Each write operation carries exactly one accepted document,
serialized by `json.dumps` onto a single line. -/
theorem c5_sink_truncation_and_flush :
    (∀ (env : DSEnv) (target_count fuel : Nat),
      (ds_file_ops env target_count fuel).head? = some FileOp.openTrunc ∧
      flushedAfterEachWrite (ds_file_ops env target_count fuel) = true) ∧
    (∀ accepted : List NADoc,
      (na_file_ops accepted).head? = some FileOp.removeOp ∧
      flushedOrClosedAfterEachWrite (na_file_ops accepted) = true) ∧
    (∀ (target_count : Nat) (env : KKEnv) (fuel : Nat),
      (kk_file_ops target_count env fuel).head? = some FileOp.openTrunc) := by
  refine ⟨fun env tc fuel => ⟨rfl, ?_⟩, fun accepted => ⟨rfl, ?_⟩, fun tc env fuel => rfl⟩
  · show flushedAfterEachWrite
      (FileOp.openTrunc :: writeFlushOps (ds_crawl env tc fuel) ++ [FileOp.closeOp]) = true
    rw [show (FileOp.openTrunc :: writeFlushOps (ds_crawl env tc fuel) ++ [FileOp.closeOp] :
          List (FileOp DSDoc)) =
        FileOp.openTrunc :: (writeFlushOps (ds_crawl env tc fuel) ++ [FileOp.closeOp]) from rfl]
    show flushedAfterEachWrite (writeFlushOps (ds_crawl env tc fuel) ++ [FileOp.closeOp]) = true
    rw [flushed_writeFlushOps]
    rfl
  · show flushedOrClosedAfterEachWrite (FileOp.removeOp :: naSaveOps accepted) = true
    show flushedOrClosedAfterEachWrite (naSaveOps accepted) = true
    exact na_save_ops_flushed accepted

/-- Witness for C5: the DailySun demo world and a two-document NewAge run. -/
theorem c5_witness :
    ((ds_file_ops dsEnvW 150 3).head? = some FileOp.openTrunc ∧
      flushedAfterEachWrite (ds_file_ops dsEnvW 150 3) = true) ∧
    ((na_file_ops [naDemoDoc, naDemoDoc]).head? = some FileOp.removeOp ∧
      flushedOrClosedAfterEachWrite (na_file_ops [naDemoDoc, naDemoDoc]) = true) ∧
    (kk_file_ops 200 kkEnvA 2).head? = some FileOp.openTrunc :=
  ⟨c5_sink_truncation_and_flush.1 dsEnvW 150 3,
   c5_sink_truncation_and_flush.2.1 [naDemoDoc, naDemoDoc],
   c5_sink_truncation_and_flush.2.2 200 kkEnvA 2⟩

/-- Counterexample for C5 as stated: a KalerKantho run that accepts two
documents produces the operation sequence open-write-write-close — the
first write is not followed by any flush (nor by a close), so the claim
that the output stream is flushed after every write fails for this
source; everything written since the file was opened can be lost on an
interruption, not just the in-flight record. -/
theorem c5_counterexample_kk_never_flushes :
    flushedAfterEachWrite (kk_file_ops 200 kkEnvA 2) = false ∧
    flushedOrClosedAfterEachWrite (kk_file_ops 200 kkEnvA 2) = false := by
  exact ⟨rfl, rfl⟩

/- ===================================================================
   Trace bookkeeping lemmas.
   =================================================================== -/

/-- Writes of an empty trace. -/
@[simp] theorem writesOf_nil {δ : Type} : writesOf ([] : List (CrawlEv δ)) = [] := rfl

/-- Writes of a trace starting with a write. -/
@[simp] theorem writesOf_cons_write {δ : Type} (d : δ) (t : List (CrawlEv δ)) :
    writesOf (.writeEv d :: t) = d :: writesOf t := rfl

/-- Writes of a trace starting with a fetch dispatch. -/
@[simp] theorem writesOf_cons_fetch {δ : Type} (u : String) (t : List (CrawlEv δ)) :
    writesOf (.fetchEv u :: t) = writesOf t := rfl

/-- Writes of a trace starting with a list call. -/
@[simp] theorem writesOf_cons_list {δ : Type} (p : Nat) (t : List (CrawlEv δ)) :
    writesOf (.listCall p :: t) = writesOf t := rfl

/-- Writes distribute over trace concatenation. -/
@[simp] theorem writesOf_append {δ : Type} (a b : List (CrawlEv δ)) :
    writesOf (a ++ b) = writesOf a ++ writesOf b := by
  simp [writesOf, List.filterMap_append]

/-- Write count of the empty trace. -/
@[simp] theorem writesCount_nil {δ : Type} : writesCount ([] : List (CrawlEv δ)) = 0 := rfl

/-- Write counts add over concatenation. -/
theorem writesCount_append {δ : Type} (a b : List (CrawlEv δ)) :
    writesCount (a ++ b) = writesCount a + writesCount b := by
  simp [writesCount]

/-- Splitting `collBounded` at a concatenation point. -/
theorem collBounded_append {δ : Type} (target : Nat) (xs : List (CrawlEv δ)) :
    ∀ (c : Nat) (ys : List (CrawlEv δ)),
      collBounded target c (xs ++ ys) =
        (collBounded target c xs && collBounded target (c + writesCount xs) ys) := by
  induction xs with
  | nil => intro c ys; simp [collBounded]
  | cons e rest ih =>
    intro c ys
    cases e with
    | listCall p => simpa [collBounded, writesCount] using ih c ys
    | fetchEv u => simpa [collBounded, writesCount] using ih c ys
    | writeEv d =>
      have harith : c + 1 + writesCount rest = c + writesCount (CrawlEv.writeEv d :: rest) := by
        simp [writesCount]
        omega
      calc collBounded target c ((CrawlEv.writeEv d :: rest) ++ ys)
          = (decide (c + 1 ≤ target) && collBounded target (c + 1) (rest ++ ys)) := rfl
        _ = (decide (c + 1 ≤ target) &&
              (collBounded target (c + 1) rest &&
                collBounded target (c + 1 + writesCount rest) ys)) := by rw [ih]
        _ = ((decide (c + 1 ≤ target) && collBounded target (c + 1) rest) &&
              collBounded target (c + writesCount (CrawlEv.writeEv d :: rest)) ys) := by
            rw [harith, Bool.and_assoc]
        _ = (collBounded target c (CrawlEv.writeEv d :: rest) &&
              collBounded target (c + writesCount (CrawlEv.writeEv d :: rest)) ys) := rfl

/-- Splitting `fetchBelow` at a concatenation point. -/
theorem fetchBelow_append {δ : Type} (target : Nat) (xs : List (CrawlEv δ)) :
    ∀ (c : Nat) (ys : List (CrawlEv δ)),
      fetchBelow target c (xs ++ ys) =
        (fetchBelow target c xs && fetchBelow target (c + writesCount xs) ys) := by
  induction xs with
  | nil => intro c ys; simp [fetchBelow]
  | cons e rest ih =>
    intro c ys
    cases e with
    | listCall p => simpa [fetchBelow, writesCount] using ih c ys
    | fetchEv u =>
      calc fetchBelow target c ((CrawlEv.fetchEv u :: rest) ++ ys)
          = (decide (c < target) && fetchBelow target c (rest ++ ys)) := rfl
        _ = (decide (c < target) &&
              (fetchBelow target c rest && fetchBelow target (c + writesCount rest) ys)) := by
            rw [ih c ys]
        _ = ((decide (c < target) && fetchBelow target c rest) &&
              fetchBelow target (c + writesCount rest) ys) := by rw [Bool.and_assoc]
        _ = (fetchBelow target c (CrawlEv.fetchEv u :: rest) &&
              fetchBelow target (c + writesCount (CrawlEv.fetchEv u :: rest)) ys) := rfl
    | writeEv d =>
      calc fetchBelow target c ((CrawlEv.writeEv d :: rest) ++ ys)
          = fetchBelow target (c + 1) (rest ++ ys) := rfl
        _ = (fetchBelow target (c + 1) rest &&
              fetchBelow target (c + 1 + writesCount rest) ys) := ih (c + 1) ys
        _ = (fetchBelow target c (CrawlEv.writeEv d :: rest) &&
              fetchBelow target (c + writesCount (CrawlEv.writeEv d :: rest)) ys) := by
            rw [show c + 1 + writesCount rest =
                c + writesCount (CrawlEv.writeEv d :: rest) from by
              simp [writesCount]
              omega]
            rfl

/- ===================================================================
   KalerKantho loop invariants.
   =================================================================== -/

/-- The per-category counter returned by the KalerKantho item loop equals
the entry counter plus the number of writes in its trace. -/
theorem kk_items_count (env : KKEnv) (category : String) (items : List KKItem) :
    ∀ collected, (kk_items env category items collected).2 =
      collected + writesCount (kk_items env category items collected).1 := by
  induction items with
  | nil => intro c; simp [kk_items]
  | cons item rest ih =>
    intro c
    by_cases h : kk_category_target ≤ c
    · simp [kk_items, h]
    · by_cases ht : (optNatTruthy item.n_id && optStrTruthy item.start_at) = true
      · cases hf : kk_fetch_article env
          (if optStrTruthy item.cat_slug then item.cat_slug.getD "" else category)
          (item.start_at.getD "") (item.n_id.getD 0) with
        | none =>
          simp only [kk_items, if_neg h, ht, if_true, hf]
          simpa [writesCount] using ih c
        | some doc =>
          simp only [kk_items, if_neg h, ht, if_true, hf]
          have := ih (c + 1)
          simp only [writesCount] at this ⊢
          simp [this]
          omega
      · simp only [kk_items, if_neg h, Bool.not_eq_true] at *
        simp [kk_items, if_neg h, ht, ih c]

/-- Every write of the KalerKantho item loop happens only when the
per-category counter is still below the hardcoded per-category target. -/
theorem kk_items_collBounded (env : KKEnv) (category : String) (items : List KKItem) :
    ∀ collected,
      collBounded kk_category_target collected (kk_items env category items collected).1 =
        true := by
  induction items with
  | nil => intro c; simp [kk_items, collBounded]
  | cons item rest ih =>
    intro c
    by_cases h : kk_category_target ≤ c
    · simp [kk_items, h, collBounded]
    · by_cases ht : (optNatTruthy item.n_id && optStrTruthy item.start_at) = true
      · cases hf : kk_fetch_article env
          (if optStrTruthy item.cat_slug then item.cat_slug.getD "" else category)
          (item.start_at.getD "") (item.n_id.getD 0) with
        | none =>
          simp only [kk_items, if_neg h, ht, if_true, hf]
          simpa [collBounded] using ih c
        | some doc =>
          simp only [kk_items, if_neg h, ht, if_true, hf]
          simp only [collBounded]
          rw [Bool.and_eq_true]
          exact ⟨by simpa using Nat.succ_le_of_lt (Nat.lt_of_not_le h), ih (c + 1)⟩
      · simp only [kk_items, if_neg h, ht]
        exact ih c

/-- Every detail fetch of the KalerKantho item loop is dispatched only
when the per-category counter is still below the target. -/
theorem kk_items_fetchBelow (env : KKEnv) (category : String) (items : List KKItem) :
    ∀ collected,
      fetchBelow kk_category_target collected (kk_items env category items collected).1 =
        true := by
  induction items with
  | nil => intro c; simp [kk_items, fetchBelow]
  | cons item rest ih =>
    intro c
    by_cases h : kk_category_target ≤ c
    · simp [kk_items, h, fetchBelow]
    · by_cases ht : (optNatTruthy item.n_id && optStrTruthy item.start_at) = true
      · cases hf : kk_fetch_article env
          (if optStrTruthy item.cat_slug then item.cat_slug.getD "" else category)
          (item.start_at.getD "") (item.n_id.getD 0) with
        | none =>
          simp only [kk_items, if_neg h, ht, if_true, hf]
          simp only [fetchBelow]
          rw [Bool.and_eq_true]
          exact ⟨by simpa using Nat.lt_of_not_le h, ih c⟩
        | some doc =>
          simp only [kk_items, if_neg h, ht, if_true, hf]
          simp only [fetchBelow]
          rw [Bool.and_eq_true]
          exact ⟨by simpa using Nat.lt_of_not_le h, ih (c + 1)⟩
      · simp only [kk_items, if_neg h, ht]
        exact ih c

/-- Every write of the KalerKantho pagination loop keeps the per-category
counter at or below the hardcoded target of 150. -/
theorem kk_cat_loop_collBounded (env : KKEnv) (category : String) :
    ∀ (fuel collected page : Nat),
      collBounded kk_category_target collected
        (kk_cat_loop env category collected page fuel) = true := by
  intro fuel
  induction fuel with
  | zero => intro c p; simp [kk_cat_loop, collBounded]
  | succ fuel ih =>
    intro c p
    by_cases h : kk_category_target ≤ c
    · simp [kk_cat_loop, h, collBounded]
    · cases hr : env.listResp category p with
      | none => simp [kk_cat_loop, h, hr, collBounded]
      | some items =>
        cases items with
        | nil => simp [kk_cat_loop, h, hr, collBounded]
        | cons it its =>
          simp only [kk_cat_loop, if_neg h, hr]
          simp only [collBounded, collBounded_append]
          rw [Bool.and_eq_true]
          refine ⟨kk_items_collBounded env category (it :: its) c, ?_⟩
          rw [← kk_items_count env category (it :: its) c]
          exact ih _ _

/- ===================================================================
   DailySun loop invariants.
   =================================================================== -/

/-- URLs of the documents written in a DailySun trace. -/
def dsWriteUrls (t : List (CrawlEv DSDoc)) : List String :=
  (writesOf t).map DSDoc.url

/-- Counter bookkeeping of the initial-page loop. -/
theorem ds_init_count (env : DSEnv) (tc : Nat) (slug : String) (links : List String) :
    ∀ (seen : List String) (collected : Nat) (last_id : Option Nat),
      (ds_init env tc slug links seen collected last_id).2.2.1 =
        collected + writesCount (ds_init env tc slug links seen collected last_id).1 := by
  induction links with
  | nil => intro seen c lid; simp [ds_init]
  | cons u rest ih =>
    intro seen c lid
    by_cases hm : u ∈ seen
    · simp only [ds_init, if_pos hm]
      exact ih seen c lid
    · by_cases h : tc ≤ c
      · simp [ds_init, hm, h]
      · cases ha : env.article u with
        | none =>
          simp only [ds_init, if_neg hm, if_neg h, ha]
          simpa [writesCount] using ih seen c lid
        | some a =>
          by_cases hb : a.body = ""
          · simp only [ds_init, if_neg hm, if_neg h, ha, if_pos hb]
            simpa [writesCount] using ih seen c lid
          · simp only [ds_init, if_neg hm, if_neg h, ha, if_neg hb]
            have := ih (u :: seen) (c + 1) (env.extract_id u)
            simp only [writesCount] at this ⊢
            simp [this]
            omega

/-- Writes of the initial-page loop keep the counter at or below the
constructor's `target_count`. -/
theorem ds_init_collBounded (env : DSEnv) (tc : Nat) (slug : String) (links : List String) :
    ∀ (seen : List String) (collected : Nat) (last_id : Option Nat),
      collBounded tc collected (ds_init env tc slug links seen collected last_id).1 = true := by
  induction links with
  | nil => intro seen c lid; simp [ds_init, collBounded]
  | cons u rest ih =>
    intro seen c lid
    by_cases hm : u ∈ seen
    · simp only [ds_init, if_pos hm]
      exact ih seen c lid
    · by_cases h : tc ≤ c
      · simp [ds_init, hm, h, collBounded]
      · cases ha : env.article u with
        | none =>
          simp only [ds_init, if_neg hm, if_neg h, ha]
          simpa [collBounded] using ih seen c lid
        | some a =>
          by_cases hb : a.body = ""
          · simp only [ds_init, if_neg hm, if_neg h, ha, if_pos hb]
            simpa [collBounded] using ih seen c lid
          · simp only [ds_init, if_neg hm, if_neg h, ha, if_neg hb]
            simp only [collBounded]
            rw [Bool.and_eq_true]
            exact ⟨by simpa using Nat.succ_le_of_lt (Nat.lt_of_not_le h),
              ih (u :: seen) (c + 1) (env.extract_id u)⟩

/-- Detail fetches of the initial-page loop are dispatched only below
`target_count`. -/
theorem ds_init_fetchBelow (env : DSEnv) (tc : Nat) (slug : String) (links : List String) :
    ∀ (seen : List String) (collected : Nat) (last_id : Option Nat),
      fetchBelow tc collected (ds_init env tc slug links seen collected last_id).1 = true := by
  induction links with
  | nil => intro seen c lid; simp [ds_init, fetchBelow]
  | cons u rest ih =>
    intro seen c lid
    by_cases hm : u ∈ seen
    · simp only [ds_init, if_pos hm]
      exact ih seen c lid
    · by_cases h : tc ≤ c
      · simp [ds_init, hm, h, fetchBelow]
      · cases ha : env.article u with
        | none =>
          simp only [ds_init, if_neg hm, if_neg h, ha]
          simp only [fetchBelow]
          rw [Bool.and_eq_true]
          exact ⟨by simpa using Nat.lt_of_not_le h, ih seen c lid⟩
        | some a =>
          by_cases hb : a.body = ""
          · simp only [ds_init, if_neg hm, if_neg h, ha, if_pos hb]
            simp only [fetchBelow]
            rw [Bool.and_eq_true]
            exact ⟨by simpa using Nat.lt_of_not_le h, ih seen c lid⟩
          · simp only [ds_init, if_neg hm, if_neg h, ha, if_neg hb]
            simp only [fetchBelow]
            rw [Bool.and_eq_true]
            exact ⟨by simpa using Nat.lt_of_not_le h, ih (u :: seen) (c + 1) (env.extract_id u)⟩

/-- Every document the initial-page loop writes has a non-empty body, its
URL was unseen on entry, is recorded in the returned seen set, and the
written URLs are pairwise distinct; the seen set only grows. -/
theorem ds_init_dedup (env : DSEnv) (tc : Nat) (slug : String) (links : List String) :
    ∀ (seen : List String) (collected : Nat) (last_id : Option Nat),
      (dsWriteUrls (ds_init env tc slug links seen collected last_id).1).Nodup ∧
      (∀ u ∈ dsWriteUrls (ds_init env tc slug links seen collected last_id).1,
        u ∉ seen ∧ u ∈ (ds_init env tc slug links seen collected last_id).2.1) ∧
      seen ⊆ (ds_init env tc slug links seen collected last_id).2.1 ∧
      (∀ d ∈ writesOf (ds_init env tc slug links seen collected last_id).1,
        d.body ≠ "") := by
  induction links with
  | nil => intro seen c lid; simp [ds_init, dsWriteUrls]
  | cons u rest ih =>
    intro seen c lid
    by_cases hm : u ∈ seen
    · simp only [ds_init, if_pos hm]
      exact ih seen c lid
    · by_cases h : tc ≤ c
      · simp [ds_init, hm, h, dsWriteUrls]
    
      · cases ha : env.article u with
        | none =>
          simp only [ds_init, if_neg hm, if_neg h, ha]
          simpa [dsWriteUrls] using ih seen c lid
        | some a =>
          by_cases hb : a.body = ""
          · simp only [ds_init, if_neg hm, if_neg h, ha, if_pos hb]
            simpa [dsWriteUrls] using ih seen c lid
          · simp only [ds_init, if_neg hm, if_neg h, ha, if_neg hb]
            obtain ⟨ihn, ihm, ihs, ihb⟩ := ih (u :: seen) (c + 1) (env.extract_id u)
            refine ⟨?_, ?_, ?_, ?_⟩
            · simp only [dsWriteUrls, writesOf_cons_fetch, writesOf_cons_write, List.map_cons]
              rw [List.nodup_cons]
              refine ⟨?_, ihn⟩
              intro hmem
              exact (ihm _ hmem).1 (List.mem_cons_self u seen)
            · intro v hv
              simp only [dsWriteUrls, writesOf_cons_fetch, writesOf_cons_write,
                List.map_cons, List.mem_cons] at hv
              rcases hv with rfl | hv2
              · exact ⟨hm, ihs (List.mem_cons_self _ _)⟩
              · obtain ⟨hnotin, hin⟩ := ihm _ hv2
                exact ⟨fun hc => hnotin (List.mem_cons_of_mem _ hc), hin⟩
            · intro v hv
              exact ihs (List.mem_cons_of_mem u hv)
            · intro d hd
              simp only [writesOf_cons_fetch, writesOf_cons_write, List.mem_cons] at hd
              rcases hd with rfl | hd2
              · simpa [ds_build_doc] using hb
              · exact ihb d hd2

/-- Counter bookkeeping of the AJAX item loop. -/
theorem ds_ajax_items_count (env : DSEnv) (tc : Nat) (slug : String) (items : List DSItem) :
    ∀ (seen : List String) (collected : Nat),
      (ds_ajax_items env tc slug items seen collected).2.2.1 =
        collected + writesCount (ds_ajax_items env tc slug items seen collected).1 := by
  induction items with
  | nil => intro seen c; simp [ds_ajax_items]
  | cons item rest ih =>
    intro seen c
    by_cases h : tc ≤ c
    · simp [ds_ajax_items, h]
    · by_cases ht : optStrTruthy item.url = true
      · by_cases hm : item.url.getD "" ∈ seen
        · simp only [ds_ajax_items, if_neg h, ht, Bool.not_true, Bool.false_eq_true,
            if_false, if_pos hm]
          exact ih seen c
        · cases ha : env.article (item.url.getD "") with
          | none =>
            simp only [ds_ajax_items, if_neg h, ht, Bool.not_true, Bool.false_eq_true,
              if_false, if_neg hm, ha]
            simpa [writesCount] using ih seen c
          | some a =>
            by_cases hb : a.body = ""
            · simp only [ds_ajax_items, if_neg h, ht, Bool.not_true, Bool.false_eq_true,
                if_false, if_neg hm, ha, if_pos hb]
              simpa [writesCount] using ih seen c
            · simp only [ds_ajax_items, if_neg h, ht, Bool.not_true, Bool.false_eq_true,
                if_false, if_neg hm, ha, if_neg hb]
              have := ih (item.url.getD "" :: seen) (c + 1)
              simp only [writesCount] at this ⊢
              simp [this]
              omega
      · simp only [ds_ajax_items, if_neg h, ht]
        simp only [Bool.not_eq_true] at ht
        simp [ht]
        have := ih seen c
        simpa [ds_ajax_items, if_neg h, ht] using this

/-- Writes of the AJAX item loop keep the counter at or below
`target_count`. -/
theorem ds_ajax_items_collBounded (env : DSEnv) (tc : Nat) (slug : String)
    (items : List DSItem) :
    ∀ (seen : List String) (collected : Nat),
      collBounded tc collected (ds_ajax_items env tc slug items seen collected).1 = true := by
  induction items with
  | nil => intro seen c; simp [ds_ajax_items, collBounded]
  | cons item rest ih =>
    intro seen c
    by_cases h : tc ≤ c
    · simp [ds_ajax_items, h, collBounded]
    · by_cases ht : optStrTruthy item.url = true
      · by_cases hm : item.url.getD "" ∈ seen
        · simp only [ds_ajax_items, if_neg h, ht, Bool.not_true, Bool.false_eq_true,
            if_false, if_pos hm]
          exact ih seen c
        · cases ha : env.article (item.url.getD "") with
          | none =>
            simp only [ds_ajax_items, if_neg h, ht, Bool.not_true, Bool.false_eq_true,
              if_false, if_neg hm, ha]
            simpa [collBounded] using ih seen c
          | some a =>
            by_cases hb : a.body = ""
            · simp only [ds_ajax_items, if_neg h, ht, Bool.not_true, Bool.false_eq_true,
                if_false, if_neg hm, ha, if_pos hb]
              simpa [collBounded] using ih seen c
            · simp only [ds_ajax_items, if_neg h, ht, Bool.not_true, Bool.false_eq_true,
                if_false, if_neg hm, ha, if_neg hb]
              simp only [collBounded]
              rw [Bool.and_eq_true]
              exact ⟨by simpa using Nat.succ_le_of_lt (Nat.lt_of_not_le h),
                ih (item.url.getD "" :: seen) (c + 1)⟩
      · simp only [ds_ajax_items, if_neg h, ht]
        simp only [Bool.not_eq_true] at ht
        simpa [ht] using ih seen c

/-- Detail fetches of the AJAX item loop are dispatched only below
`target_count`. -/
theorem ds_ajax_items_fetchBelow (env : DSEnv) (tc : Nat) (slug : String)
    (items : List DSItem) :
    ∀ (seen : List String) (collected : Nat),
      fetchBelow tc collected (ds_ajax_items env tc slug items seen collected).1 = true := by
  induction items with
  | nil => intro seen c; simp [ds_ajax_items, fetchBelow]
  | cons item rest ih =>
    intro seen c
    by_cases h : tc ≤ c
    · simp [ds_ajax_items, h, fetchBelow]
    · by_cases ht : optStrTruthy item.url = true
      · by_cases hm : item.url.getD "" ∈ seen
        · simp only [ds_ajax_items, if_neg h, ht, Bool.not_true, Bool.false_eq_true,
            if_false, if_pos hm]
          exact ih seen c
        · cases ha : env.article (item.url.getD "") with
          | none =>
            simp only [ds_ajax_items, if_neg h, ht, Bool.not_true, Bool.false_eq_true,
              if_false, if_neg hm, ha]
            simp only [fetchBelow]
            rw [Bool.and_eq_true]
            exact ⟨by simpa using Nat.lt_of_not_le h, ih seen c⟩
          | some a =>
            by_cases hb : a.body = ""
            · simp only [ds_ajax_items, if_neg h, ht, Bool.not_true, Bool.false_eq_true,
                if_false, if_neg hm, ha, if_pos hb]
              simp only [fetchBelow]
              rw [Bool.and_eq_true]
              exact ⟨by simpa using Nat.lt_of_not_le h, ih seen c⟩
            · simp only [ds_ajax_items, if_neg h, ht, Bool.not_true, Bool.false_eq_true,
                if_false, if_neg hm, ha, if_neg hb]
              simp only [fetchBelow]
              rw [Bool.and_eq_true]
              exact ⟨by simpa using Nat.lt_of_not_le h,
                ih (item.url.getD "" :: seen) (c + 1)⟩
      · simp only [ds_ajax_items, if_neg h, ht]
        simp only [Bool.not_eq_true] at ht
        simpa [ht] using ih seen c

/-- Dedup, body, `has_new` and shape properties of the AJAX item loop: the
written URLs are distinct, unseen on entry, recorded in the returned seen
set; the seen set only grows; written bodies are non-empty; `has_new` is
false exactly on the empty event trace (every processed new candidate
emits its fetch event); and the loop emits no list calls. -/
theorem ds_ajax_items_props (env : DSEnv) (tc : Nat) (slug : String)
    (items : List DSItem) :
    ∀ (seen : List String) (collected : Nat),
      (dsWriteUrls (ds_ajax_items env tc slug items seen collected).1).Nodup ∧
      (∀ u ∈ dsWriteUrls (ds_ajax_items env tc slug items seen collected).1,
        u ∉ seen ∧ u ∈ (ds_ajax_items env tc slug items seen collected).2.1) ∧
      seen ⊆ (ds_ajax_items env tc slug items seen collected).2.1 ∧
      (∀ d ∈ writesOf (ds_ajax_items env tc slug items seen collected).1, d.body ≠ "") ∧
      ((ds_ajax_items env tc slug items seen collected).2.2.2 = false →
        (ds_ajax_items env tc slug items seen collected).1 = []) ∧
      ((ds_ajax_items env tc slug items seen collected).2.2.2 = true →
        ∃ u, CrawlEv.fetchEv u ∈ (ds_ajax_items env tc slug items seen collected).1) ∧
      noListCall (ds_ajax_items env tc slug items seen collected).1 = true := by
  induction items with
  | nil => intro seen c; simp [ds_ajax_items, dsWriteUrls, noListCall]
  | cons item rest ih =>
    intro seen c
    by_cases h : tc ≤ c
    · simp [ds_ajax_items, h, dsWriteUrls, noListCall]
    · by_cases ht : optStrTruthy item.url = true
      · by_cases hm : item.url.getD "" ∈ seen
        · simp only [ds_ajax_items, if_neg h, ht, Bool.not_true, Bool.false_eq_true,
            if_false, if_pos hm]
          exact ih seen c
        · cases ha : env.article (item.url.getD "") with
          | none =>
            simp only [ds_ajax_items, if_neg h, ht, Bool.not_true, Bool.false_eq_true,
              if_false, if_neg hm, ha]
            obtain ⟨ihn, ihm, ihs, ihb, _, _, ihl⟩ := ih seen c
            refine ⟨by simpa [dsWriteUrls] using ihn, ?_, ihs,
              by simpa using ihb, ?_, ?_, ?_⟩
            · intro v hv
              exact ihm v (by simpa [dsWriteUrls] using hv)
            · intro hfalse
              simp at hfalse
            · intro _
              exact ⟨item.url.getD "", List.mem_cons_self _ _⟩
            · simpa [noListCall, isListCall] using ihl
          | some a =>
            by_cases hb : a.body = ""
            · simp only [ds_ajax_items, if_neg h, ht, Bool.not_true, Bool.false_eq_true,
                if_false, if_neg hm, ha, if_pos hb]
              obtain ⟨ihn, ihm, ihs, ihb2, _, _, ihl⟩ := ih seen c
              refine ⟨by simpa [dsWriteUrls] using ihn, ?_, ihs,
                by simpa using ihb2, ?_, ?_, ?_⟩
              · intro v hv
                exact ihm v (by simpa [dsWriteUrls] using hv)
              · intro hfalse
                simp at hfalse
              · intro _
                exact ⟨item.url.getD "", List.mem_cons_self _ _⟩
              · simpa [noListCall, isListCall] using ihl
            · simp only [ds_ajax_items, if_neg h, ht, Bool.not_true, Bool.false_eq_true,
                if_false, if_neg hm, ha, if_neg hb]
              obtain ⟨ihn, ihm, ihs, ihb2, _, _, ihl⟩ :=
                ih (item.url.getD "" :: seen) (c + 1)
              refine ⟨?_, ?_, ?_, ?_, ?_, ?_, ?_⟩
              · simp only [dsWriteUrls, writesOf_cons_fetch, writesOf_cons_write,
                  List.map_cons]
                rw [List.nodup_cons]
                refine ⟨?_, ihn⟩
                intro hmem
                exact (ihm _ hmem).1 (List.mem_cons_self _ _)
              · intro v hv
                simp only [dsWriteUrls, writesOf_cons_fetch, writesOf_cons_write,
                  List.map_cons, List.mem_cons] at hv
                rcases hv with rfl | hv2
                · exact ⟨hm, ihs (List.mem_cons_self _ _)⟩
                · obtain ⟨hnotin, hin⟩ := ihm _ hv2
                  exact ⟨fun hc => hnotin (List.mem_cons_of_mem _ hc), hin⟩
              · intro v hv
                exact ihs (List.mem_cons_of_mem _ hv)
              · intro d hd
                simp only [writesOf_cons_fetch, writesOf_cons_write, List.mem_cons] at hd
                rcases hd with rfl | hd2
                · simpa [ds_build_doc] using hb
                · exact ihb2 d hd2
              · intro hfalse
                simp at hfalse
              · intro _
                exact ⟨item.url.getD "", List.mem_cons_self _ _⟩
              · simpa [noListCall, isListCall] using ihl
      · simp only [ds_ajax_items, if_neg h, ht]
        simp only [Bool.not_eq_true] at ht
        simpa [ht] using ih seen c

/-- Writes of the whole AJAX pagination loop keep the counter at or below
`target_count`. -/
theorem ds_ajax_loop_collBounded (env : DSEnv) (tc cid : Nat) (slug : String)
    (lid : Option Nat) :
    ∀ (fuel : Nat) (seen : List String) (c page : Nat),
      collBounded tc c (ds_ajax_loop env tc cid slug lid seen c page fuel) = true := by
  intro fuel
  induction fuel with
  | zero => intro seen c p; simp [ds_ajax_loop, collBounded]
  | succ fuel ih =>
    intro seen c p
    by_cases h : tc ≤ c
    · simp [ds_ajax_loop, h, collBounded]
    · cases hr : env.listResp cid p lid with
      | none => simp [ds_ajax_loop, h, hr, collBounded]
      | some items =>
        cases items with
        | nil => simp [ds_ajax_loop, h, hr, collBounded]
        | cons it its =>
          simp only [ds_ajax_loop, if_neg h, hr]
          simp only [collBounded, collBounded_append]
          rw [Bool.and_eq_true]
          refine ⟨ds_ajax_items_collBounded env tc slug (it :: its) seen c, ?_⟩
          rw [← ds_ajax_items_count env tc slug (it :: its) seen c]
          cases hn : (ds_ajax_items env tc slug (it :: its) seen c).2.2.2
          · simp [collBounded]
          · simpa [hn] using ih _ _ _

/-- Detail fetches of the whole AJAX pagination loop are dispatched only
below `target_count`. -/
theorem ds_ajax_loop_fetchBelow (env : DSEnv) (tc cid : Nat) (slug : String)
    (lid : Option Nat) :
    ∀ (fuel : Nat) (seen : List String) (c page : Nat),
      fetchBelow tc c (ds_ajax_loop env tc cid slug lid seen c page fuel) = true := by
  intro fuel
  induction fuel with
  | zero => intro seen c p; simp [ds_ajax_loop, fetchBelow]
  | succ fuel ih =>
    intro seen c p
    by_cases h : tc ≤ c
    · simp [ds_ajax_loop, h, fetchBelow]
    · cases hr : env.listResp cid p lid with
      | none => simp [ds_ajax_loop, h, hr, fetchBelow]
      | some items =>
        cases items with
        | nil => simp [ds_ajax_loop, h, hr, fetchBelow]
        | cons it its =>
          simp only [ds_ajax_loop, if_neg h, hr]
          simp only [fetchBelow, fetchBelow_append]
          rw [Bool.and_eq_true]
          refine ⟨ds_ajax_items_fetchBelow env tc slug (it :: its) seen c, ?_⟩
          rw [← ds_ajax_items_count env tc slug (it :: its) seen c]
          cases hn : (ds_ajax_items env tc slug (it :: its) seen c).2.2.2
          · simp [fetchBelow]
          · simpa [hn] using ih _ _ _

/-- Dedup and body properties of the whole AJAX pagination loop: written
URLs are pairwise distinct and disjoint from the entry seen set, and every
written body is non-empty. -/
theorem ds_ajax_loop_dedup (env : DSEnv) (tc cid : Nat) (slug : String)
    (lid : Option Nat) :
    ∀ (fuel : Nat) (seen : List String) (c page : Nat),
      (dsWriteUrls (ds_ajax_loop env tc cid slug lid seen c page fuel)).Nodup ∧
      (∀ u ∈ dsWriteUrls (ds_ajax_loop env tc cid slug lid seen c page fuel), u ∉ seen) ∧
      (∀ d ∈ writesOf (ds_ajax_loop env tc cid slug lid seen c page fuel), d.body ≠ "") := by
  intro fuel
  induction fuel with
  | zero => intro seen c p; simp [ds_ajax_loop, dsWriteUrls]
  | succ fuel ih =>
    intro seen c p
    by_cases h : tc ≤ c
    · simp [ds_ajax_loop, h, dsWriteUrls]
    · cases hr : env.listResp cid p lid with
      | none => simp [ds_ajax_loop, h, hr, dsWriteUrls]
      | some items =>
        cases items with
        | nil => simp [ds_ajax_loop, h, hr, dsWriteUrls]
        | cons it its =>
          simp only [ds_ajax_loop, if_neg h, hr]
          obtain ⟨pn, pm, ps, pb, _, _, _⟩ := ds_ajax_items_props env tc slug (it :: its) seen c
          cases hn : (ds_ajax_items env tc slug (it :: its) seen c).2.2.2 with
          | false =>
            simp only [hn, if_false, Bool.false_eq_true, List.append_nil]
            refine ⟨by simpa [dsWriteUrls] using pn, ?_, ?_⟩
            · intro u hu
              exact (pm u (by simpa [dsWriteUrls] using hu)).1
            · intro d hd
              exact pb d (by simpa using hd)
          | true =>
            simp only [hn, if_true]
            obtain ⟨qn, qm, qb⟩ := ih (ds_ajax_items env tc slug (it :: its) seen c).2.1
              (ds_ajax_items env tc slug (it :: its) seen c).2.2.1 (p + 1)
            refine ⟨?_, ?_, ?_⟩
            · simp only [dsWriteUrls, writesOf_cons_list, writesOf_append, List.map_append]
              refine List.Nodup.append (by simpa [dsWriteUrls] using pn)
                (by simpa [dsWriteUrls] using qn) ?_
              intro u hu1 hu2
              exact qm u (by simpa [dsWriteUrls] using hu2)
                ((pm u (by simpa [dsWriteUrls] using hu1)).2)
            · intro u hu
              simp only [dsWriteUrls, writesOf_cons_list, writesOf_append, List.map_append,
                List.mem_append] at hu
              rcases hu with hu1 | hu2
              · exact (pm u (by simpa [dsWriteUrls] using hu1)).1
              · intro hc
                exact qm u (by simpa [dsWriteUrls] using hu2) (ps hc)
            · intro d hd
              simp only [writesOf_cons_list, writesOf_append, List.mem_append] at hd
              rcases hd with hd1 | hd2
              · exact pb d hd1
              · exact qb d hd2

/-- Writes of one whole DailySun category run keep `category_collected` at
or below the constructor's `target_count`. -/
theorem ds_category_collBounded (env : DSEnv) (tc : Nat) (cat_url : String) (fuel : Nat) :
    collBounded tc 0 (ds_category env tc cat_url fuel) = true := by
  cases hmeta : (env.meta cat_url).1 with
  | none => simp [ds_category, hmeta, collBounded]
  | some cid =>
    simp only [ds_category, hmeta]
    rw [collBounded_append]
    rw [Bool.and_eq_true]
    refine ⟨ds_init_collBounded env tc (slugOf cat_url) (env.initLinks cat_url) [] 0
      (env.meta cat_url).2, ?_⟩
    rw [show (0 : Nat) + writesCount (ds_init env tc (slugOf cat_url)
        (env.initLinks cat_url) [] 0 (env.meta cat_url).2).1 =
      (ds_init env tc (slugOf cat_url) (env.initLinks cat_url) [] 0
        (env.meta cat_url).2).2.2.1 from by
      rw [ds_init_count]]
    exact ds_ajax_loop_collBounded env tc cid (slugOf cat_url) _ fuel _ _ 1

/-- Detail fetches of one whole DailySun category run are dispatched only
below `target_count`. -/
theorem ds_category_fetchBelow (env : DSEnv) (tc : Nat) (cat_url : String) (fuel : Nat) :
    fetchBelow tc 0 (ds_category env tc cat_url fuel) = true := by
  cases hmeta : (env.meta cat_url).1 with
  | none => simp [ds_category, hmeta, fetchBelow]
  | some cid =>
    simp only [ds_category, hmeta]
    rw [fetchBelow_append]
    rw [Bool.and_eq_true]
    refine ⟨ds_init_fetchBelow env tc (slugOf cat_url) (env.initLinks cat_url) [] 0
      (env.meta cat_url).2, ?_⟩
    rw [show (0 : Nat) + writesCount (ds_init env tc (slugOf cat_url)
        (env.initLinks cat_url) [] 0 (env.meta cat_url).2).1 =
      (ds_init env tc (slugOf cat_url) (env.initLinks cat_url) [] 0
        (env.meta cat_url).2).2.2.1 from by
      rw [ds_init_count]]
    exact ds_ajax_loop_fetchBelow env tc cid (slugOf cat_url) _ fuel _ _ 1

/-- Dedup and body properties of one whole DailySun category run: each
distinct URL is written at most once, and every persisted document has a
non-empty body. -/
theorem ds_category_dedup (env : DSEnv) (tc : Nat) (cat_url : String) (fuel : Nat) :
    (dsWriteUrls (ds_category env tc cat_url fuel)).Nodup ∧
    (∀ d ∈ writesOf (ds_category env tc cat_url fuel), d.body ≠ "") := by
  cases hmeta : (env.meta cat_url).1 with
  | none => simp [ds_category, hmeta, dsWriteUrls]
  | some cid =>
    simp only [ds_category, hmeta]
    obtain ⟨pn, pm, ps, pb⟩ := ds_init_dedup env tc (slugOf cat_url)
      (env.initLinks cat_url) [] 0 (env.meta cat_url).2
    obtain ⟨qn, qm, qb⟩ := ds_ajax_loop_dedup env tc cid (slugOf cat_url) _ fuel
      (ds_init env tc (slugOf cat_url) (env.initLinks cat_url) [] 0 (env.meta cat_url).2).2.1
      (ds_init env tc (slugOf cat_url) (env.initLinks cat_url) [] 0 (env.meta cat_url).2).2.2.1
      1
    constructor
    · simp only [dsWriteUrls, writesOf_append, List.map_append]
      refine List.Nodup.append (by simpa [dsWriteUrls] using pn)
        (by simpa [dsWriteUrls] using qn) ?_
      intro u hu1 hu2
      exact qm u (by simpa [dsWriteUrls] using hu2) ((pm u (by simpa [dsWriteUrls] using hu1)).2)
    · intro d hd
      simp only [writesOf_append, List.mem_append] at hd
      rcases hd with hd1 | hd2
      · exact pb d hd1
      · exact qb d hd2

/- ===================================================================
   NewAge worker-pool invariants.
   =================================================================== -/

/-- `naActive` holds exactly for `claimed` and `got` phases. -/
theorem naActive_iff (p : NAPhase) :
    naActive p ↔ (p = .claimed ∨ ∃ d, p = .got d) := by
  cases p <;> simp [naActive]

/-- The core invariant of the NewAge worker pool, preserved by every
interleaving: per-category counts never exceed the target and agree with
the accepted list; accepted URLs are pairwise distinct, visited,
drawn from the task queue, and produced by the fetch-parse pipeline; a
worker holding a `got` document got it from the pipeline; an active
worker's URL is visited but not yet accepted, and no two active workers
hold the same URL; every visited URL belongs to some task. -/
structure NAInv (tasks : List NATask) (target : Nat)
    (fp : String → String → Option NADoc) (s : NASys) : Prop where
  countsLe : ∀ c, s.counts c ≤ target
  countsEq : ∀ c, s.counts c = s.accepted.countP (fun td => td.1.cat = c)
  nodupAcc : (naAcceptedUrls s).Nodup
  accVisited : ∀ td ∈ s.accepted, td.1.url ∈ s.visited
  accTasks : ∀ td ∈ s.accepted, td.1 ∈ tasks
  accFetched : ∀ td ∈ s.accepted, fp td.1.url td.1.cat = some td.2
  gotFetched : ∀ (i : Nat) (h : i < tasks.length) (d : NADoc), s.phases i = .got d →
    fp (tasks.get ⟨i, h⟩).url (tasks.get ⟨i, h⟩).cat = some d
  activeNotAcc : ∀ (i : Nat) (h : i < tasks.length), naActive (s.phases i) →
    (tasks.get ⟨i, h⟩).url ∈ s.visited ∧ (tasks.get ⟨i, h⟩).url ∉ naAcceptedUrls s
  activeUniq : ∀ (i j : Nat) (hi : i < tasks.length) (hj : j < tasks.length), i ≠ j →
    naActive (s.phases i) → naActive (s.phases j) →
    (tasks.get ⟨i, hi⟩).url ≠ (tasks.get ⟨j, hj⟩).url
  visitedTasks : ∀ u ∈ s.visited, ∃ (j : Nat) (hj : j < tasks.length),
    (tasks.get ⟨j, hj⟩).url = u

/-- The initial state satisfies the invariant. -/
theorem naInv_init (tasks : List NATask) (target : Nat)
    (fp : String → String → Option NADoc) : NAInv tasks target fp naInit := by
  refine ⟨?_, ?_, ?_, ?_, ?_, ?_, ?_, ?_, ?_, ?_⟩ <;>
    simp [naInit, naAcceptedUrls, naActive]

/-- One step of any worker preserves the invariant. -/
theorem naInv_step (tasks : List NATask) (target : Nat)
    (fp : String → String → Option NADoc) (s s' : NASys)
    (inv : NAInv tasks target fp s) (hst : NAStep tasks target fp s s') :
    NAInv tasks target fp s' := by
  obtain ⟨cLe, cEq, nd, aV, aT, aF, gF, aN, aU, vT⟩ := inv
  cases hst with
  | earlyExit i h hph hge =>
    refine ⟨cLe, cEq, nd, aV, aT, aF, ?_, ?_, ?_, vT⟩
    · intro j hj d hphj
      simp only [Function.update_apply] at hphj
      by_cases hji : j = i
      · rw [if_pos hji] at hphj
        exact absurd hphj (by simp)
      · rw [if_neg hji] at hphj
        exact gF j hj d hphj
    · intro j hj hact
      simp only [Function.update_apply] at hact
      by_cases hji : j = i
      · rw [if_pos hji] at hact
        simp [naActive] at hact
      · rw [if_neg hji] at hact
        exact aN j hj hact
    · intro j k hj hk hjk hactj hactk
      simp only [Function.update_apply] at hactj hactk
      by_cases hji : j = i
      · rw [if_pos hji] at hactj
        simp [naActive] at hactj
      · by_cases hki : k = i
        · rw [if_pos hki] at hactk
          simp [naActive] at hactk
        · rw [if_neg hji] at hactj
          rw [if_neg hki] at hactk
          exact aU j k hj hk hjk hactj hactk
  | earlyPass i h hph hlt =>
    refine ⟨cLe, cEq, nd, aV, aT, aF, ?_, ?_, ?_, vT⟩
    · intro j hj d hphj
      simp only [Function.update_apply] at hphj
      by_cases hji : j = i
      · rw [if_pos hji] at hphj
        exact absurd hphj (by simp)
      · rw [if_neg hji] at hphj
        exact gF j hj d hphj
    · intro j hj hact
      simp only [Function.update_apply] at hact
      by_cases hji : j = i
      · rw [if_pos hji] at hact
        simp [naActive] at hact
      · rw [if_neg hji] at hact
        exact aN j hj hact
    · intro j k hj hk hjk hactj hactk
      simp only [Function.update_apply] at hactj hactk
      by_cases hji : j = i
      · rw [if_pos hji] at hactj
        simp [naActive] at hactj
      · by_cases hki : k = i
        · rw [if_pos hki] at hactk
          simp [naActive] at hactk
        · rw [if_neg hji] at hactj
          rw [if_neg hki] at hactk
          exact aU j k hj hk hjk hactj hactk
  | dedupHit i h hph hmem =>
    refine ⟨cLe, cEq, nd, aV, aT, aF, ?_, ?_, ?_, vT⟩
    · intro j hj d hphj
      simp only [Function.update_apply] at hphj
      by_cases hji : j = i
      · rw [if_pos hji] at hphj
        exact absurd hphj (by simp)
      · rw [if_neg hji] at hphj
        exact gF j hj d hphj
    · intro j hj hact
      simp only [Function.update_apply] at hact
      by_cases hji : j = i
      · rw [if_pos hji] at hact
        simp [naActive] at hact
      · rw [if_neg hji] at hact
        exact aN j hj hact
    · intro j k hj hk hjk hactj hactk
      simp only [Function.update_apply] at hactj hactk
      by_cases hji : j = i
      · rw [if_pos hji] at hactj
        simp [naActive] at hactj
      · by_cases hki : k = i
        · rw [if_pos hki] at hactk
          simp [naActive] at hactk
        · rw [if_neg hji] at hactj
          rw [if_neg hki] at hactk
          exact aU j k hj hk hjk hactj hactk
  | dedupMiss i h hph hnm =>
    have hUrlNotAcc : (tasks.get ⟨i, h⟩).url ∉ naAcceptedUrls s := by
      intro hc
      obtain ⟨td, htd, hurl⟩ := List.mem_map.mp hc
      exact hnm (hurl ▸ aV td htd)
    refine ⟨cLe, cEq, nd, ?_, aT, aF, ?_, ?_, ?_, ?_⟩
    · intro td htd
      exact List.mem_cons_of_mem _ (aV td htd)
    · intro j hj d hphj
      simp only [Function.update_apply] at hphj
      by_cases hji : j = i
      · rw [if_pos hji] at hphj
        exact absurd hphj (by simp)
      · rw [if_neg hji] at hphj
        exact gF j hj d hphj
    · intro j hj hact
      simp only [Function.update_apply] at hact
      by_cases hji : j = i
      · subst hji
        refine ⟨List.mem_cons_self _ _, hUrlNotAcc⟩
      · rw [if_neg hji] at hact
        obtain ⟨h1, h2⟩ := aN j hj hact
        exact ⟨List.mem_cons_of_mem _ h1, h2⟩
    · intro j k hj hk hjk hactj hactk
      simp only [Function.update_apply] at hactj hactk
      by_cases hji : j = i
      · subst hji
        rw [if_neg (fun hc => hjk hc.symm)] at hactk
        intro hc
        exact hnm (hc ▸ (aN k hk hactk).1)
      · rw [if_neg hji] at hactj
        by_cases hki : k = i
        · subst hki
          intro hc
          exact hnm (hc ▸ (aN j hj hactj).1)
        · rw [if_neg hki] at hactk
          exact aU j k hj hk hjk hactj hactk
    · intro u hu
      rcases List.mem_cons.mp hu with rfl | hu2
      · exact ⟨i, h, rfl⟩
      · exact vT u hu2
  | fetchFail i h hph hfp =>
    refine ⟨cLe, cEq, nd, aV, aT, aF, ?_, ?_, ?_, vT⟩
    · intro j hj d hphj
      simp only [Function.update_apply] at hphj
      by_cases hji : j = i
      · rw [if_pos hji] at hphj
        exact absurd hphj (by simp)
      · rw [if_neg hji] at hphj
        exact gF j hj d hphj
    · intro j hj hact
      simp only [Function.update_apply] at hact
      by_cases hji : j = i
      · rw [if_pos hji] at hact
        simp [naActive] at hact
      · rw [if_neg hji] at hact
        exact aN j hj hact
    · intro j k hj hk hjk hactj hactk
      simp only [Function.update_apply] at hactj hactk
      by_cases hji : j = i
      · rw [if_pos hji] at hactj
        simp [naActive] at hactj
      · by_cases hki : k = i
        · rw [if_pos hki] at hactk
          simp [naActive] at hactk
        · rw [if_neg hji] at hactj
          rw [if_neg hki] at hactk
          exact aU j k hj hk hjk hactj hactk
  | fetchOk i h d hph hfp =>
    have hactOld : naActive (s.phases i) := by
      rw [hph]; trivial
    refine ⟨cLe, cEq, nd, aV, aT, aF, ?_, ?_, ?_, vT⟩
    · intro j hj d2 hphj
      simp only [Function.update_apply] at hphj
      by_cases hji : j = i
      · subst hji
        rw [if_pos rfl] at hphj
        cases hphj
        exact hfp
      · rw [if_neg hji] at hphj
        exact gF j hj d2 hphj
    · intro j hj hact
      simp only [Function.update_apply] at hact
      by_cases hji : j = i
      · subst hji
        exact aN j hj hactOld
      · rw [if_neg hji] at hact
        exact aN j hj hact
    · intro j k hj hk hjk hactj hactk
      simp only [Function.update_apply] at hactj hactk
      by_cases hji : j = i
      · subst hji
        by_cases hki : k = j
        · exact absurd hki.symm hjk
        · rw [if_neg hki] at hactk
          exact aU j k hj hk hjk hactOld hactk
      · rw [if_neg hji] at hactj
        by_cases hki : k = i
        · subst hki
          exact aU j k hj hk hjk hactj hactOld
        · rw [if_neg hki] at hactk
          exact aU j k hj hk hjk hactj hactk
  | acceptOk i h d hph hlt =>
    have hactOld : naActive (s.phases i) := by
      rw [hph]; trivial
    obtain ⟨hvis, hnacc⟩ := aN i h hactOld
    refine ⟨?_, ?_, ?_, ?_, ?_, ?_, ?_, ?_, ?_, vT⟩
    · intro c
      simp only [Function.update_apply]
      by_cases hc : c = (tasks.get ⟨i, h⟩).cat
      · rw [if_pos hc]
        exact hlt
      · rw [if_neg hc]
        exact cLe c
    · intro c
      simp only [Function.update_apply, List.countP_append]
      by_cases hc : c = (tasks.get ⟨i, h⟩).cat
      · subst hc
        rw [if_pos rfl, cEq]
        simp
      · rw [if_neg hc, cEq c]
        have : (List.countP (fun td => decide (td.1.cat = c))
            [((tasks.get ⟨i, h⟩), d)]) = 0 := by
          simp
          exact fun hcc => hc hcc.symm
        omega
    · show (naAcceptedUrls { s with
        counts := Function.update s.counts (tasks.get ⟨i, h⟩).cat
          (s.counts (tasks.get ⟨i, h⟩).cat + 1)
        accepted := s.accepted ++ [((tasks.get ⟨i, h⟩), d)]
        phases := Function.update s.phases i .finished }).Nodup
      rw [show (naAcceptedUrls { s with
          counts := Function.update s.counts (tasks.get ⟨i, h⟩).cat
            (s.counts (tasks.get ⟨i, h⟩).cat + 1)
          accepted := s.accepted ++ [((tasks.get ⟨i, h⟩), d)]
          phases := Function.update s.phases i .finished }) =
        naAcceptedUrls s ++ [(tasks.get ⟨i, h⟩).url] from by
        simp [naAcceptedUrls]]
      refine List.Nodup.append nd (by simp) ?_
      intro u hu1 hu2
      rcases List.mem_singleton.mp hu2 with rfl
      exact hnacc hu1
    · intro td htd
      rcases List.mem_append.mp htd with htd1 | htd2
      · exact aV td htd1
      · rcases List.mem_singleton.mp htd2 with rfl
        exact hvis
    · intro td htd
      rcases List.mem_append.mp htd with htd1 | htd2
      · exact aT td htd1
      · rcases List.mem_singleton.mp htd2 with rfl
        exact List.get_mem tasks i h
    · intro td htd
      rcases List.mem_append.mp htd with htd1 | htd2
      · exact aF td htd1
      · rcases List.mem_singleton.mp htd2 with rfl
        exact gF i h d hph
    · intro j hj d2 hphj
      simp only [Function.update_apply] at hphj
      by_cases hji : j = i
      · rw [if_pos hji] at hphj
        exact absurd hphj (by simp)
      · rw [if_neg hji] at hphj
        exact gF j hj d2 hphj
    · intro j hj hact
      simp only [Function.update_apply] at hact
      by_cases hji : j = i
      · rw [if_pos hji] at hact
        simp [naActive] at hact
      · rw [if_neg hji] at hact
        obtain ⟨h1, h2⟩ := aN j hj hact
        refine ⟨h1, ?_⟩
        rw [show (naAcceptedUrls { s with
            counts := Function.update s.counts (tasks.get ⟨i, h⟩).cat
              (s.counts (tasks.get ⟨i, h⟩).cat + 1)
            accepted := s.accepted ++ [((tasks.get ⟨i, h⟩), d)]
            phases := Function.update s.phases i .finished }) =
          naAcceptedUrls s ++ [(tasks.get ⟨i, h⟩).url] from by
          simp [naAcceptedUrls]]
        intro hc
        rcases List.mem_append.mp hc with hc1 | hc2
        · exact h2 hc1
        · rcases List.mem_singleton.mp hc2 with heq
          exact aU j i hj h hji hact hactOld heq
    · intro j k hj hk hjk hactj hactk
      simp only [Function.update_apply] at hactj hactk
      by_cases hji : j = i
      · rw [if_pos hji] at hactj
        simp [naActive] at hactj
      · by_cases hki : k = i
        · rw [if_pos hki] at hactk
          simp [naActive] at hactk
        · rw [if_neg hji] at hactj
          rw [if_neg hki] at hactk
          exact aU j k hj hk hjk hactj hactk
  | acceptRej i h d hph hge =>
    refine ⟨cLe, cEq, nd, aV, aT, aF, ?_, ?_, ?_, vT⟩
    · intro j hj d2 hphj
      simp only [Function.update_apply] at hphj
      by_cases hji : j = i
      · rw [if_pos hji] at hphj
        exact absurd hphj (by simp)
      · rw [if_neg hji] at hphj
        exact gF j hj d2 hphj
    · intro j hj hact
      simp only [Function.update_apply] at hact
      by_cases hji : j = i
      · rw [if_pos hji] at hact
        simp [naActive] at hact
      · rw [if_neg hji] at hact
        exact aN j hj hact
    · intro j k hj hk hjk hactj hactk
      simp only [Function.update_apply] at hactj hactk
      by_cases hji : j = i
      · rw [if_pos hji] at hactj
        simp [naActive] at hactj
      · by_cases hki : k = i
        · rw [if_pos hki] at hactk
          simp [naActive] at hactk
        · rw [if_neg hji] at hactj
          rw [if_neg hki] at hactk
          exact aU j k hj hk hjk hactj hactk

/-- The invariant holds in every reachable state. -/
theorem naInv_reach (tasks : List NATask) (target : Nat)
    (fp : String → String → Option NADoc) (s : NASys)
    (hre : NAReach tasks target fp s) : NAInv tasks target fp s := by
  induction hre with
  | refl => exact naInv_init tasks target fp
  | tail h1 h2 ih => exact naInv_step tasks target fp _ _ ih h2

/-- One step never removes a visited URL and never decreases a count. -/
theorem naStep_mono (tasks : List NATask) (target : Nat)
    (fp : String → String → Option NADoc) (s s' : NASys)
    (hst : NAStep tasks target fp s s') :
    s.visited ⊆ s'.visited ∧ (∀ c, s.counts c ≤ s'.counts c) := by
  cases hst with
  | earlyExit i h hph hge => exact ⟨fun u hu => hu, fun c => le_refl _⟩
  | earlyPass i h hph hlt => exact ⟨fun u hu => hu, fun c => le_refl _⟩
  | dedupHit i h hph hmem => exact ⟨fun u hu => hu, fun c => le_refl _⟩
  | dedupMiss i h hph hnm =>
    exact ⟨fun u hu => List.mem_cons_of_mem _ hu, fun c => le_refl _⟩
  | fetchFail i h hph hfp => exact ⟨fun u hu => hu, fun c => le_refl _⟩
  | fetchOk i h d hph hfp => exact ⟨fun u hu => hu, fun c => le_refl _⟩
  | acceptOk i h d hph hlt =>
    refine ⟨fun u hu => hu, fun c => ?_⟩
    show s.counts c ≤ Function.update s.counts (tasks.get ⟨i, h⟩).cat
      (s.counts (tasks.get ⟨i, h⟩).cat + 1) c
    rw [Function.update_apply]
    by_cases hc : c = (tasks.get ⟨i, h⟩).cat
    · rw [if_pos hc, hc]
      omega
    · rw [if_neg hc]
  | acceptRej i h d hph hge => exact ⟨fun u hu => hu, fun c => le_refl _⟩

/-- Along any run segment the dedup set only grows and counts never
decrease. -/
theorem naRun_mono (tasks : List NATask) (target : Nat)
    (fp : String → String → Option NADoc) (s s' : NASys)
    (hrun : Relation.ReflTransGen (NAStep tasks target fp) s s') :
    s.visited ⊆ s'.visited ∧ (∀ c, s.counts c ≤ s'.counts c) := by
  induction hrun with
  | refl => exact ⟨fun u hu => hu, fun c => le_refl _⟩
  | tail h1 h2 ih =>
    obtain ⟨hv, hc⟩ := naStep_mono tasks target fp _ _ h2
    exact ⟨fun u hu => hv (ih.1 hu), fun c => le_trans (ih.2 c) (hc c)⟩

/-- Progress bookkeeping for a single-category NewAge run: every visited
URL is accepted, held by an active worker, or the cap was reached; and
every finished worker either left its URL in the dedup set or saw the cap
reached. -/
def NAProgress (tasks : List NATask) (target : Nat) (c : String) (s : NASys) : Prop :=
  (∀ u ∈ s.visited, u ∈ naAcceptedUrls s ∨
    (∃ (i : Nat) (hi : i < tasks.length), naActive (s.phases i) ∧
      (tasks.get ⟨i, hi⟩).url = u) ∨
    target ≤ s.counts c) ∧
  (∀ (i : Nat) (hi : i < tasks.length), s.phases i = .finished →
    (tasks.get ⟨i, hi⟩).url ∈ s.visited ∨ target ≤ s.counts c)

/-- The initial state satisfies the progress bookkeeping. -/
theorem naProgress_init (tasks : List NATask) (target : Nat) (c : String) :
    NAProgress tasks target c naInit := by
  constructor
  · intro u hu
    simp [naInit] at hu
  · intro i hi hph
    simp [naInit] at hph

/-- One step preserves the progress bookkeeping when every fetch-parse
succeeds and all tasks belong to category `c`. -/
theorem naProgress_step (tasks : List NATask) (target : Nat) (c : String)
    (fp : String → String → Option NADoc) (s s' : NASys)
    (Hfp : ∀ u cc, (fp u cc).isSome = true)
    (Hcat : ∀ t ∈ tasks, t.cat = c)
    (inv : NAInv tasks target fp s)
    (hpr : NAProgress tasks target c s)
    (hst : NAStep tasks target fp s s') :
    NAProgress tasks target c s' := by
  obtain ⟨pr1, pr2⟩ := hpr
  cases hst with
  | earlyExit i h hph hge =>
    have hcatc : (tasks.get ⟨i, h⟩).cat = c := Hcat _ (List.get_mem tasks i h)
    constructor
    · intro u hu
      rcases pr1 u hu with hacc | ⟨j, hj, hact, hurl⟩ | hcnt
      · exact Or.inl hacc
      · refine Or.inr (Or.inl ⟨j, hj, ?_, hurl⟩)
        show naActive (Function.update s.phases i .finished j)
        simp only [Function.update_apply]
        by_cases hji : j = i
        · subst hji
          rw [hph] at hact
          simp [naActive] at hact
        · rw [if_neg hji]
          exact hact
      · exact Or.inr (Or.inr hcnt)
    · intro j hj hphj
      simp only [Function.update_apply] at hphj
      by_cases hji : j = i
      · subst hji
        exact Or.inr (hcatc ▸ hge)
      · rw [if_neg hji] at hphj
        exact pr2 j hj hphj
  | earlyPass i h hph hlt =>
    constructor
    · intro u hu
      rcases pr1 u hu with hacc | ⟨j, hj, hact, hurl⟩ | hcnt
      · exact Or.inl hacc
      · refine Or.inr (Or.inl ⟨j, hj, ?_, hurl⟩)
        show naActive (Function.update s.phases i .ready j)
        simp only [Function.update_apply]
        by_cases hji : j = i
        · subst hji
          rw [hph] at hact
          simp [naActive] at hact
        · rw [if_neg hji]
          exact hact
      · exact Or.inr (Or.inr hcnt)
    · intro j hj hphj
      simp only [Function.update_apply] at hphj
      by_cases hji : j = i
      · rw [if_pos hji] at hphj
        exact absurd hphj (by simp)
      · rw [if_neg hji] at hphj
        exact pr2 j hj hphj
  | dedupHit i h hph hmem =>
    constructor
    · intro u hu
      rcases pr1 u hu with hacc | ⟨j, hj, hact, hurl⟩ | hcnt
      · exact Or.inl hacc
      · refine Or.inr (Or.inl ⟨j, hj, ?_, hurl⟩)
        show naActive (Function.update s.phases i .finished j)
        simp only [Function.update_apply]
        by_cases hji : j = i
        · subst hji
          rw [hph] at hact
          simp [naActive] at hact
        · rw [if_neg hji]
          exact hact
      · exact Or.inr (Or.inr hcnt)
    · intro j hj hphj
      simp only [Function.update_apply] at hphj
      by_cases hji : j = i
      · subst hji
        exact Or.inl hmem
      · rw [if_neg hji] at hphj
        exact pr2 j hj hphj
  | dedupMiss i h hph hnm =>
    constructor
    · intro u hu
      rcases List.mem_cons.mp hu with rfl | hu2
      · refine Or.inr (Or.inl ⟨i, h, ?_, rfl⟩)
        show naActive (Function.update s.phases i .claimed i)
        simp [Function.update_apply, naActive]
      · rcases pr1 u hu2 with hacc | ⟨j, hj, hact, hurl⟩ | hcnt
        · exact Or.inl hacc
        · refine Or.inr (Or.inl ⟨j, hj, ?_, hurl⟩)
          show naActive (Function.update s.phases i .claimed j)
          simp only [Function.update_apply]
          by_cases hji : j = i
          · subst hji
            rw [hph] at hact
            simp [naActive] at hact
          · rw [if_neg hji]
            exact hact
        · exact Or.inr (Or.inr hcnt)
    · intro j hj hphj
      simp only [Function.update_apply] at hphj
      by_cases hji : j = i
      · rw [if_pos hji] at hphj
        exact absurd hphj (by simp)
      · rw [if_neg hji] at hphj
        rcases pr2 j hj hphj with hv | hcnt
        · exact Or.inl (List.mem_cons_of_mem _ hv)
        · exact Or.inr hcnt
  | fetchFail i h hph hfp =>
    have := Hfp (tasks.get ⟨i, h⟩).url (tasks.get ⟨i, h⟩).cat
    rw [hfp] at this
    simp at this
  | fetchOk i h d hph hfp =>
    constructor
    · intro u hu
      rcases pr1 u hu with hacc | ⟨j, hj, hact, hurl⟩ | hcnt
      · exact Or.inl hacc
      · refine Or.inr (Or.inl ⟨j, hj, ?_, hurl⟩)
        show naActive (Function.update s.phases i (.got d) j)
        simp only [Function.update_apply]
        by_cases hji : j = i
        · subst hji
          simp [naActive]
        · rw [if_neg hji]
          exact hact
      · exact Or.inr (Or.inr hcnt)
    · intro j hj hphj
      simp only [Function.update_apply] at hphj
      by_cases hji : j = i
      · rw [if_pos hji] at hphj
        exact absurd hphj (by simp)
      · rw [if_neg hji] at hphj
        exact pr2 j hj hphj
  | acceptOk i h d hph hlt =>
    have hactOld : naActive (s.phases i) := by
      rw [hph]; trivial
    have hcmono : ∀ cc, s.counts cc ≤
        Function.update s.counts (tasks.get ⟨i, h⟩).cat
          (s.counts (tasks.get ⟨i, h⟩).cat + 1) cc := by
      intro cc
      rw [Function.update_apply]
      by_cases hc : cc = (tasks.get ⟨i, h⟩).cat
      · rw [if_pos hc, hc]
        omega
      · rw [if_neg hc]
    have haccext : ∀ v, v ∈ naAcceptedUrls s →
        v ∈ naAcceptedUrls s ++ [(tasks.get ⟨i, h⟩).url] :=
      fun v hv => List.mem_append.mpr (Or.inl hv)
    constructor
    · intro u hu
      rcases pr1 u hu with hacc | ⟨j, hj, hact, hurl⟩ | hcnt
      · refine Or.inl ?_
        show u ∈ naAcceptedUrls { s with
          counts := Function.update s.counts (tasks.get ⟨i, h⟩).cat
            (s.counts (tasks.get ⟨i, h⟩).cat + 1)
          accepted := s.accepted ++ [((tasks.get ⟨i, h⟩), d)]
          phases := Function.update s.phases i .finished }
        rw [show naAcceptedUrls { s with
            counts := Function.update s.counts (tasks.get ⟨i, h⟩).cat
              (s.counts (tasks.get ⟨i, h⟩).cat + 1)
            accepted := s.accepted ++ [((tasks.get ⟨i, h⟩), d)]
            phases := Function.update s.phases i .finished } =
          naAcceptedUrls s ++ [(tasks.get ⟨i, h⟩).url] from by
          simp [naAcceptedUrls]]
        exact haccext u hacc
      · by_cases hji : j = i
        · subst hji
          refine Or.inl ?_
          rw [show naAcceptedUrls { s with
              counts := Function.update s.counts (tasks.get ⟨j, h⟩).cat
                (s.counts (tasks.get ⟨j, h⟩).cat + 1)
              accepted := s.accepted ++ [((tasks.get ⟨j, h⟩), d)]
              phases := Function.update s.phases j .finished } =
            naAcceptedUrls s ++ [(tasks.get ⟨j, h⟩).url] from by
            simp [naAcceptedUrls]]
          refine List.mem_append.mpr (Or.inr ?_)
          rw [show (tasks.get ⟨j, hj⟩) = (tasks.get ⟨j, h⟩) from rfl] at hurl
          simp only [List.mem_singleton]
          exact hurl.symm
        · refine Or.inr (Or.inl ⟨j, hj, ?_, hurl⟩)
          show naActive (Function.update s.phases i .finished j)
          simp only [Function.update_apply]
          rw [if_neg hji]
          exact hact
      · exact Or.inr (Or.inr (le_trans hcnt (hcmono c)))
    · intro j hj hphj
      simp only [Function.update_apply] at hphj
      by_cases hji : j = i
      · subst hji
        exact Or.inl (inv.activeNotAcc j h hactOld).1
      · rw [if_neg hji] at hphj
        rcases pr2 j hj hphj with hv | hcnt
        · exact Or.inl hv
        · exact Or.inr (le_trans hcnt (hcmono c))
  | acceptRej i h d hph hge =>
    have hcatc : (tasks.get ⟨i, h⟩).cat = c := Hcat _ (List.get_mem tasks i h)
    have hcge : target ≤ s.counts c := hcatc ▸ hge
    exact ⟨fun u hu => Or.inr (Or.inr hcge), fun j hj hphj => Or.inr hcge⟩

/-- The progress bookkeeping holds in every reachable state of a
single-category run with an always-succeeding pipeline. -/
theorem naProgress_reach (tasks : List NATask) (target : Nat) (c : String)
    (fp : String → String → Option NADoc) (s : NASys)
    (Hfp : ∀ u cc, (fp u cc).isSome = true)
    (Hcat : ∀ t ∈ tasks, t.cat = c)
    (hre : NAReach tasks target fp s) : NAProgress tasks target c s := by
  induction hre with
  | refl => exact naProgress_init tasks target c
  | tail h1 h2 ih =>
    exact naProgress_step tasks target c fp _ _ Hfp Hcat
      (naInv_reach tasks target fp _ h1) ih h2

/-- Exactness of a completed single-category NewAge run with an
always-succeeding pipeline: the number of accepted documents equals the
number of distinct candidate URLs, capped at `target_count`. -/
theorem na_exact_final (tasks : List NATask) (target : Nat) (c : String)
    (fp : String → String → Option NADoc) (s : NASys)
    (hre : NAReach tasks target fp s)
    (Hfp : ∀ u cc, (fp u cc).isSome = true)
    (Hcat : ∀ t ∈ tasks, t.cat = c)
    (hfin : ∀ i, i < tasks.length → s.phases i = NAPhase.finished) :
    s.accepted.length = min ((tasks.map NATask.url).toFinset.card) target := by
  have inv := naInv_reach tasks target fp s hre
  have pr := naProgress_reach tasks target c fp s Hfp Hcat hre
  have hcnt : s.counts c = s.accepted.length := by
    rw [inv.countsEq c]
    apply List.countP_eq_length.mpr
    intro td htd
    simp [Hcat td.1 (inv.accTasks td htd)]
  have hsub : ∀ u ∈ naAcceptedUrls s, u ∈ tasks.map NATask.url := by
    intro u hu
    obtain ⟨td, htd, rfl⟩ := List.mem_map.mp hu
    exact List.mem_map.mpr ⟨td.1, inv.accTasks td htd, rfl⟩
  have hlenacc : (naAcceptedUrls s).length = s.accepted.length := List.length_map _ _
  by_cases hlt : s.accepted.length < target
  · have hclt : s.counts c < target := by rw [hcnt]; exact hlt
    have hall : ∀ u ∈ tasks.map NATask.url, u ∈ naAcceptedUrls s := by
      intro u hu
      obtain ⟨t, ht, rfl⟩ := List.mem_map.mp hu
      obtain ⟨n, hn⟩ := List.mem_iff_get.mp ht
      have hget : tasks.get ⟨n.1, n.2⟩ = t := by rw [← hn]
      rcases pr.2 n.1 n.2 (hfin n.1 n.2) with hv | hge
      · rw [hget] at hv
        rcases pr.1 _ hv with hacc | ⟨k, hk, hact, _⟩ | hge2
        · exact hacc
        · rw [hfin k hk] at hact
          simp [naActive] at hact
        · omega
      · omega
    have hfs : ((tasks.map NATask.url).toFinset : Finset String) =
        (naAcceptedUrls s).toFinset := by
      ext u
      simp only [List.mem_toFinset]
      exact ⟨hall u, hsub u⟩
    rw [hfs, List.toFinset_card_of_nodup inv.nodupAcc, hlenacc]
    exact (min_eq_left (Nat.le_of_lt hlt)).symm
  · have heq : s.accepted.length = target :=
      le_antisymm (hcnt ▸ inv.countsLe c) (Nat.le_of_not_lt hlt)
    have hcard : s.accepted.length ≤ (tasks.map NATask.url).toFinset.card := by
      rw [← hlenacc, ← List.toFinset_card_of_nodup inv.nodupAcc]
      apply Finset.card_le_card
      intro u hu
      exact List.mem_toFinset.mpr (hsub u (List.mem_toFinset.mp hu))
    rw [heq]
    exact (min_eq_right (heq ▸ hcard)).symm

/-- A successfully parsed NewAge article has a body of at least 100
characters. -/
theorem na_parse_article_body (titleOf dateOf bodyOf : String → String)
    (url html category : String) (d : NADoc)
    (hp : na_parse_article titleOf dateOf bodyOf url html category = some d) :
    100 ≤ d.body.length := by
  unfold na_parse_article at hp
  by_cases h1 : strContains (titleOf html) "Most Popular Outspoken English Daily" = true
  · rw [if_pos h1] at hp
    cases hp
  · rw [if_neg h1] at hp
    by_cases h2 : (bodyOf html).length < 100
    · rw [if_pos h2] at hp
      cases hp
    · rw [if_neg h2] at hp
      cases hp
      simpa using Nat.le_of_not_lt h2

/-- The demo run's first step: the early target check passes. -/
theorem naDemoStep1 : NAStep naDemoTasks 1 naDemoFp naInit naDemoS1 :=
  NAStep.earlyPass naInit 0 (by decide) rfl (by decide)

/-- The demo run's second step: the URL is claimed in the dedup set. -/
theorem naDemoStep2 : NAStep naDemoTasks 1 naDemoFp naDemoS1 naDemoS2 :=
  NAStep.dedupMiss naDemoS1 0 (by decide) rfl (by decide)

/-- The demo run's third step: fetch and parse succeed. -/
theorem naDemoStep3 : NAStep naDemoTasks 1 naDemoFp naDemoS2 naDemoS3 :=
  NAStep.fetchOk naDemoS2 0 (by decide) naDemoDoc rfl (by decide)

/-- The demo run's fourth step: the document is accepted. -/
theorem naDemoStep4 : NAStep naDemoTasks 1 naDemoFp naDemoS3 naDemoS4 :=
  NAStep.acceptOk naDemoS3 0 (by decide) naDemoDoc rfl (by decide)

/-- The demo final state is reachable. -/
theorem naDemoReach : NAReach naDemoTasks 1 naDemoFp naDemoS4 :=
  Relation.ReflTransGen.head naDemoStep1
    (Relation.ReflTransGen.head naDemoStep2
      (Relation.ReflTransGen.head naDemoStep3
        (Relation.ReflTransGen.head naDemoStep4 Relation.ReflTransGen.refl)))

/-- In the demo final state every worker is finished. -/
theorem naDemoFinished : ∀ i, i < naDemoTasks.length → naDemoS4.phases i = .finished := by
  intro i hi
  have h0 : i = 0 := by
    have : naDemoTasks.length = 1 := rfl
    omega
  subst h0
  rfl

/- ===================================================================
   C1: target-count invariant.
   =================================================================== -/

/-- C1 (corrected). Per-category target invariant: in the NewAge worker
pool, under every interleaving of any number of concurrent workers, each
category's `collected_counts` entry never exceeds `target_count`; in the
DailySun crawler each `category_collected` never exceeds the constructor's
`target_count` at any write; in the KalerKantho crawler each
`category_collected` never exceeds the hardcoded per-category target 150.
(The cross-category totals stored in `self.collected_count` are NOT
bounded by the constructor's `target_count` — see the counterexample.) -/
theorem c1_per_category_target_invariant :
    (∀ (tasks : List NATask) (target : Nat) (fp : String → String → Option NADoc)
      (s : NASys) (c : String), NAReach tasks target fp s → s.counts c ≤ target) ∧
    (∀ (env : DSEnv) (target_count : Nat) (cat_url : String) (fuel : Nat),
      collBounded target_count 0 (ds_category env target_count cat_url fuel) = true) ∧
    (∀ (env : KKEnv) (category : String) (fuel : Nat),
      collBounded kk_category_target 0 (kk_cat_loop env category 0 1 fuel) = true) := by
  refine ⟨?_, ?_, ?_⟩
  · intro tasks target fp s c hre
    exact (naInv_reach tasks target fp s hre).countsLe c
  · intro env tc cu fuel
    exact ds_category_collBounded env tc cu fuel
  · intro env cat fuel
    exact kk_cat_loop_collBounded env cat fuel 0 1

/-- Witness for C1: the demo NewAge run, the demo DailySun world, and the
demo KalerKantho world. -/
theorem c1_witness :
    naDemoS4.counts "c1" ≤ 1 ∧
    collBounded 150 0 (ds_category dsEnvW 150 "https://www.daily-sun.com/sports" 3) = true ∧
    collBounded kk_category_target 0 (kk_cat_loop kkEnvA "national" 0 1 2) = true :=
  ⟨c1_per_category_target_invariant.1 naDemoTasks 1 naDemoFp naDemoS4 "c1" naDemoReach,
   c1_per_category_target_invariant.2.1 dsEnvW 150 "https://www.daily-sun.com/sports" 3,
   c1_per_category_target_invariant.2.2 kkEnvA "national" 2⟩

/-- Counterexample for C1 as stated: a KalerKantho crawler constructed
with `target_count = 1` whose `national` category lists two fetchable
articles ends its run with `self.collected_count = 2 > 1 = target_count` —
`crawl` never consults the constructor's `target_count`, so the invariant
`collected_count <= target_count` fails. -/
theorem c1_counterexample_total_exceeds_target :
    kk_collected_count 1 kkEnvA 2 = 2 ∧ ¬ (kk_collected_count 1 kkEnvA 2 ≤ 1) := by
  exact ⟨rfl, by decide⟩

/- ===================================================================
   C2: deduplication.
   =================================================================== -/

/-- C2 (corrected). Dedup behaviour of the crawlers that have a guard:
in the NewAge worker pool, under every interleaving, the accepted URLs are
pairwise distinct (each distinct identifier is persisted and counted at
most once) and the `visited_urls` set only grows along the run; when every
fetch-parse succeeds and all tasks target one category, a completed run
accepts exactly `min(#distinct URLs, target_count)` documents; in a
DailySun category run the written URLs are pairwise distinct. (The
KalerKantho crawler has no dedup guard at all — see the counterexample.) -/
theorem c2_dedup_guard :
    (∀ (tasks : List NATask) (target : Nat) (fp : String → String → Option NADoc)
      (s : NASys), NAReach tasks target fp s → (naAcceptedUrls s).Nodup) ∧
    (∀ (tasks : List NATask) (target : Nat) (fp : String → String → Option NADoc)
      (s s' : NASys), Relation.ReflTransGen (NAStep tasks target fp) s s' →
      s.visited ⊆ s'.visited) ∧
    (∀ (tasks : List NATask) (target : Nat) (c : String)
      (fp : String → String → Option NADoc) (s : NASys),
      NAReach tasks target fp s →
      (∀ u cc, (fp u cc).isSome = true) →
      (∀ t ∈ tasks, t.cat = c) →
      (∀ i, i < tasks.length → s.phases i = NAPhase.finished) →
      s.accepted.length = min ((tasks.map NATask.url).toFinset.card) target) ∧
    (∀ (env : DSEnv) (target_count : Nat) (cat_url : String) (fuel : Nat),
      (dsWriteUrls (ds_category env target_count cat_url fuel)).Nodup) := by
  refine ⟨?_, ?_, ?_, ?_⟩
  · intro tasks target fp s hre
    exact (naInv_reach tasks target fp s hre).nodupAcc
  · intro tasks target fp s s' hrun
    exact (naRun_mono tasks target fp s s' hrun).1
  · intro tasks target c fp s hre hfp hcat hfin
    exact na_exact_final tasks target c fp s hre hfp hcat hfin
  · intro env tc cu fuel
    exact (ds_category_dedup env tc cu fuel).1

/-- Witness for C2: the demo NewAge run (one distinct URL, target 1,
exactly one accepted document) and the demo DailySun world. -/
theorem c2_witness :
    (naAcceptedUrls naDemoS4).Nodup ∧
    naInit.visited ⊆ naDemoS4.visited ∧
    naDemoS4.accepted.length = min ((naDemoTasks.map NATask.url).toFinset.card) 1 ∧
    (dsWriteUrls (ds_category dsEnvW 150 "https://www.daily-sun.com/sports" 3)).Nodup :=
  ⟨c2_dedup_guard.1 naDemoTasks 1 naDemoFp naDemoS4 naDemoReach,
   c2_dedup_guard.2.1 naDemoTasks 1 naDemoFp naInit naDemoS4 naDemoReach,
   c2_dedup_guard.2.2.1 naDemoTasks 1 "c1" naDemoFp naDemoS4 naDemoReach
     (fun u cc => rfl) (by decide) naDemoFinished,
   c2_dedup_guard.2.2.2 dsEnvW 150 "https://www.daily-sun.com/sports" 3⟩

/-- Counterexample for C2 as stated: a KalerKantho category page that
lists the same article (`n_id` 7) twice makes the crawler persist and
count it twice — there is no dedup guard in that adapter, so a distinct
identifier is accepted more than once. -/
theorem c2_counterexample_kk_duplicate_persisted :
    (writesOf (kk_cat_loop kkEnvB "national" 0 1 2)).map KKDoc.url =
      ["https://www.kalerkantho.com/online/national/2024/01/01/7",
       "https://www.kalerkantho.com/online/national/2024/01/01/7"] ∧
    ¬ ((writesOf (kk_cat_loop kkEnvB "national" 0 1 2)).map KKDoc.url).Nodup := by
  exact ⟨rfl, by decide⟩

/- ===================================================================
   C3: non-empty bodies of persisted records.
   =================================================================== -/

/-- C3 (corrected). Body guarantee where the source enforces one: every
document a DailySun category run writes has a non-empty body (the crawl
guard `if article and article['body']`), and every document a NewAge run
accepts — through `fetch_url` followed by `parse_article` — has a body of
at least 100 characters, hence non-empty. (The ProthomAlo spider can
persist an untagged `full-article` record with an empty body — see the
counterexample — and the KalerKantho crawler writes `fetch_article`
results without any body check.) -/
theorem c3_persisted_bodies_nonempty :
    (∀ (env : DSEnv) (target_count : Nat) (cat_url : String) (fuel : Nat),
      ∀ d ∈ writesOf (ds_category env target_count cat_url fuel), d.body ≠ "") ∧
    (∀ (fetchRes : String → Option String) (titleOf dateOf bodyOf : String → String)
      (tasks : List NATask) (target : Nat) (s : NASys),
      NAReach tasks target (na_fp fetchRes titleOf dateOf bodyOf) s →
      ∀ td ∈ s.accepted, 100 ≤ td.2.body.length ∧ td.2.body ≠ "") := by
  constructor
  · intro env tc cu fuel
    exact (ds_category_dedup env tc cu fuel).2
  · intro fetchRes titleOf dateOf bodyOf tasks target s hre td htd
    have hfp := (naInv_reach tasks target _ s hre).accFetched td htd
    unfold na_fp at hfp
    cases hfr : fetchRes td.1.url with
    | none =>
      rw [hfr] at hfp
      cases hfp
    | some html =>
      rw [hfr] at hfp
      have hlen := na_parse_article_body titleOf dateOf bodyOf td.1.url html td.1.cat td.2 hfp
      refine ⟨hlen, ?_⟩
      intro hempty
      rw [hempty] at hlen
      simp at hlen

/-- Witness for C3: a concrete document written in the demo DailySun world
and the accepted document of the demo NewAge run. -/
theorem c3_witness :
    (ds_build_doc "https://www.daily-sun.com/sports/10/x" "sports" ⟨"T", "D", "B"⟩).body ≠ "" ∧
    (100 ≤ naDemoDoc.body.length ∧ naDemoDoc.body ≠ "") :=
  ⟨c3_persisted_bodies_nonempty.1 dsEnvW 150 "https://www.daily-sun.com/sports" 3
      (ds_build_doc "https://www.daily-sun.com/sports/10/x" "sports" ⟨"T", "D", "B"⟩)
      (by decide),
   c3_persisted_bodies_nonempty.2 naDemoFetchRes naDemoTitleOf naDemoDateOf naDemoBodyOf
      naDemoTasks 1 naDemoS4 naDemoReach (⟨"u1", "c1"⟩, naDemoDoc) (by decide)⟩

/-- Counterexample for C3 as stated: an article page with no
`story-element-text` paragraphs makes the ProthomAlo spider yield — and
scrapy's feed exporter persist — a record whose body is the empty string
but whose `content_type` is `full-article`, not the tagged headline-only
variant: an untagged empty-body record is persisted. -/
theorem c3_counterexample_pa_empty_untagged :
    (pa_parse_article [] (some "T") none "https://www.prothomalo.com/bangladesh/x" none
      "bangladesh").body = some "" ∧
    (pa_parse_article [] (some "T") none "https://www.prothomalo.com/bangladesh/x" none
      "bangladesh").content_type = "full-article" ∧
    ¬ (pa_parse_article [] (some "T") none "https://www.prothomalo.com/bangladesh/x" none
      "bangladesh").content_type = "headline-only" := by
  exact ⟨rfl, rfl, by decide⟩

/- ===================================================================
   C9 supporting lemmas: KalerKantho fetch bound, event shapes, and the
   ProthomAlo item bookkeeping.
   =================================================================== -/

/-- Detail fetches of the KalerKantho pagination loop are dispatched only
below the per-category target. -/
theorem kk_cat_loop_fetchBelow (env : KKEnv) (category : String) :
    ∀ (fuel collected page : Nat),
      fetchBelow kk_category_target collected
        (kk_cat_loop env category collected page fuel) = true := by
  intro fuel
  induction fuel with
  | zero => intro c p; simp [kk_cat_loop, fetchBelow]
  | succ fuel ih =>
    intro c p
    by_cases h : kk_category_target ≤ c
    · simp [kk_cat_loop, h, fetchBelow]
    · cases hr : env.listResp category p with
      | none => simp [kk_cat_loop, h, hr, fetchBelow]
      | some items =>
        cases items with
        | nil => simp [kk_cat_loop, h, hr, fetchBelow]
        | cons it its =>
          simp only [kk_cat_loop, if_neg h, hr]
          simp only [fetchBelow, fetchBelow_append]
          rw [Bool.and_eq_true]
          refine ⟨kk_items_fetchBelow env category (it :: its) c, ?_⟩
          rw [← kk_items_count env category (it :: its) c]
          exact ih _ _

/-- The KalerKantho item loop emits no list calls. -/
theorem kk_items_noListCall (env : KKEnv) (category : String) (items : List KKItem) :
    ∀ collected, noListCall (kk_items env category items collected).1 = true := by
  induction items with
  | nil => intro c; simp [kk_items, noListCall]
  | cons item rest ih =>
    intro c
    by_cases h : kk_category_target ≤ c
    · simp [kk_items, h, noListCall]
    · by_cases ht : (optNatTruthy item.n_id && optStrTruthy item.start_at) = true
      · cases hf : kk_fetch_article env
          (if optStrTruthy item.cat_slug then item.cat_slug.getD "" else category)
          (item.start_at.getD "") (item.n_id.getD 0) with
        | none =>
          simp only [kk_items, if_neg h, ht, if_true, hf]
          simpa [noListCall, isListCall] using ih c
        | some doc =>
          simp only [kk_items, if_neg h, ht, if_true, hf]
          simpa [noListCall, isListCall] using ih (c + 1)
      · simp only [kk_items, if_neg h, ht]
        exact ih c

/-- Number of item events (headline yields plus article requests) in a
ProthomAlo trace; each one increments `items_seen`. -/
def paItemCount (t : List PAEv) : Nat :=
  t.countP (fun e => match e with | .apiCall _ => false | _ => true)

/-- Splitting `paItemsBelow` at a concatenation point. -/
theorem paItemsBelow_append (max_items : Nat) (xs : List PAEv) :
    ∀ (seen : Nat) (ys : List PAEv),
      paItemsBelow max_items seen (xs ++ ys) =
        (paItemsBelow max_items seen xs &&
          paItemsBelow max_items (seen + paItemCount xs) ys) := by
  induction xs with
  | nil => intro seen ys; simp [paItemsBelow, paItemCount]
  | cons e rest ih =>
    intro seen ys
    cases e with
    | apiCall o =>
      calc paItemsBelow max_items seen ((PAEv.apiCall o :: rest) ++ ys)
          = paItemsBelow max_items seen (rest ++ ys) := rfl
        _ = (paItemsBelow max_items seen rest &&
              paItemsBelow max_items (seen + paItemCount rest) ys) := ih seen ys
        _ = (paItemsBelow max_items seen (PAEv.apiCall o :: rest) &&
              paItemsBelow max_items (seen + paItemCount (PAEv.apiCall o :: rest)) ys) := by
            rw [show paItemCount (PAEv.apiCall o :: rest) = paItemCount rest from by
              simp [paItemCount]]
            rfl
    | yieldHeadline r =>
      calc paItemsBelow max_items seen ((PAEv.yieldHeadline r :: rest) ++ ys)
          = (decide (seen < max_items) &&
              paItemsBelow max_items (seen + 1) (rest ++ ys)) := rfl
        _ = (decide (seen < max_items) &&
              (paItemsBelow max_items (seen + 1) rest &&
                paItemsBelow max_items (seen + 1 + paItemCount rest) ys)) := by
            rw [ih (seen + 1) ys]
        _ = (paItemsBelow max_items seen (PAEv.yieldHeadline r :: rest) &&
              paItemsBelow max_items (seen + paItemCount (PAEv.yieldHeadline r :: rest)) ys) := by
            rw [show seen + 1 + paItemCount rest =
                seen + paItemCount (PAEv.yieldHeadline r :: rest) from by
              simp [paItemCount, List.countP_cons]
              omega]
            rw [← Bool.and_assoc]
            rfl
    | articleRequest u =>
      calc paItemsBelow max_items seen ((PAEv.articleRequest u :: rest) ++ ys)
          = (decide (seen < max_items) &&
              paItemsBelow max_items (seen + 1) (rest ++ ys)) := rfl
        _ = (decide (seen < max_items) &&
              (paItemsBelow max_items (seen + 1) rest &&
                paItemsBelow max_items (seen + 1 + paItemCount rest) ys)) := by
            rw [ih (seen + 1) ys]
        _ = (paItemsBelow max_items seen (PAEv.articleRequest u :: rest) &&
              paItemsBelow max_items (seen + paItemCount (PAEv.articleRequest u :: rest)) ys) := by
            rw [show seen + 1 + paItemCount rest =
                seen + paItemCount (PAEv.articleRequest u :: rest) from by
              simp [paItemCount, List.countP_cons]
              omega]
            rw [← Bool.and_assoc]
            rfl

/-- Bookkeeping of the `parse_api` entry loop: the returned `items_seen`
counts one increment per emitted event, every event is emitted below
`max_items`, and no API call is emitted. -/
theorem pa_entries_props (max_items : Nat) (entries : List PAEntry) :
    ∀ seen : Nat,
      (pa_entries max_items entries seen).2.1 =
        seen + paItemCount (pa_entries max_items entries seen).1 ∧
      paItemsBelow max_items seen (pa_entries max_items entries seen).1 = true ∧
      (∀ o : Nat, PAEv.apiCall o ∉ (pa_entries max_items entries seen).1) := by
  induction entries with
  | nil => intro seen; simp [pa_entries, paItemCount, paItemsBelow]
  | cons e rest ih =>
    intro seen
    by_cases h : max_items ≤ seen
    · simp [pa_entries, h, paItemCount, paItemsBelow]
    · by_cases hs : optStrTruthy e.story_url = true
      · obtain ⟨ih1, ih2, ih3⟩ := ih (seen + 1)
        simp only [pa_entries, if_neg h, hs, if_true]
        refine ⟨?_, ?_, ?_⟩
        · simp only [paItemCount, List.countP_cons] at ih1 ⊢
          simp [ih1]
          omega
        · simp only [paItemsBelow]
          rw [Bool.and_eq_true]
          exact ⟨by simpa using Nat.lt_of_not_le h, ih2⟩
        · intro o hmem
          rcases List.mem_cons.mp hmem with heq | hmem2
          · cases heq
          · exact ih3 o hmem2
      · obtain ⟨ih1, ih2, ih3⟩ := ih (seen + 1)
        simp only [pa_entries, if_neg h, hs]
        refine ⟨?_, ?_, ?_⟩
        · simp only [paItemCount, List.countP_cons] at ih1 ⊢
          simp [ih1]
          omega
        · simp only [paItemsBelow]
          rw [Bool.and_eq_true]
          exact ⟨by simpa using Nat.lt_of_not_le h, ih2⟩
        · intro o hmem
          rcases List.mem_cons.mp hmem with heq | hmem2
          · cases heq
          · exact ih3 o hmem2

/-- Every item of the `parse_api` callback chain is processed only while
`items_seen` is strictly below `max_items`. -/
theorem pa_api_loop_itemsBelow (max_items : Nat) (env : Nat → List PAEntry) :
    ∀ (fuel offset seen : Nat),
      paItemsBelow max_items seen (pa_api_loop max_items env offset seen fuel) = true := by
  intro fuel
  induction fuel with
  | zero => intro o seen; simp [pa_api_loop, paItemsBelow]
  | succ fuel ih =>
    intro o seen
    by_cases he : env o = []
    · simp [pa_api_loop, he, paItemsBelow]
    · obtain ⟨p1, p2, _⟩ := pa_entries_props max_items (env o) seen
      simp only [pa_api_loop, if_neg he]
      show paItemsBelow max_items seen ((pa_entries max_items (env o) seen).1 ++ _) = true
      rw [paItemsBelow_append, Bool.and_eq_true]
      refine ⟨p2, ?_⟩
      rw [← p1]
      cases hstop : (pa_entries max_items (env o) seen).2.2
      · simpa [hstop] using ih (o + pa_limit) (pa_entries max_items (env o) seen).2.1
      · simp [hstop, paItemsBelow]

/-- Segment decomposition of the DailySun AJAX loop: the trace is a
sequence of list calls on consecutive pages, each followed only by
per-item events, and every list call except the last one yielded at least
one new candidate (witnessed by a fetch dispatch). In particular, after a
list step that yields zero new candidates, or a missing/empty/unparseable
response, no further list calls are issued. -/
theorem ds_ajax_loop_segs (env : DSEnv) (tc cid : Nat) (slug : String)
    (lid : Option Nat) :
    ∀ (fuel : Nat) (seen : List String) (c page : Nat),
      ∃ segs : List (Nat × List (CrawlEv DSDoc)),
        ds_ajax_loop env tc cid slug lid seen c page fuel = flattenSegs segs ∧
        (∀ sg ∈ segs, noListCall sg.2 = true) ∧
        (∀ (i : Nat) (hi : i < segs.length), (segs.get ⟨i, hi⟩).1 = page + i) ∧
        (∀ (i : Nat) (hi : i + 1 < segs.length), ∃ u,
          CrawlEv.fetchEv u ∈ (segs.get ⟨i, Nat.lt_of_succ_lt hi⟩).2) := by
  intro fuel
  induction fuel with
  | zero =>
    intro seen c page
    exact ⟨[], rfl, by simp, by simp, by simp⟩
  | succ fuel ih =>
    intro seen c page
    by_cases h : tc ≤ c
    · exact ⟨[], by simp [ds_ajax_loop, h, flattenSegs], by simp, by simp, by simp⟩
    · cases hr : env.listResp cid page lid with
      | none =>
        refine ⟨[(page, [])], ?_, ?_, ?_, ?_⟩
        · simp [ds_ajax_loop, h, hr, flattenSegs]
        · intro sg hsg
          rcases List.mem_singleton.mp hsg with rfl
          rfl
        · intro i hi
          have : i = 0 := by simpa using Nat.lt_one_iff.mp (by simpa using hi)
          subst this
          simp
        · intro i hi
          simp at hi
      | some items =>
        cases items with
        | nil =>
          refine ⟨[(page, [])], ?_, ?_, ?_, ?_⟩
          · simp [ds_ajax_loop, h, hr, flattenSegs]
          · intro sg hsg
            rcases List.mem_singleton.mp hsg with rfl
            rfl
          · intro i hi
            have : i = 0 := by simpa using Nat.lt_one_iff.mp (by simpa using hi)
            subst this
            simp
          · intro i hi
            simp at hi
        | cons it its =>
          obtain ⟨_, _, _, _, _, hfetch, hnlc⟩ := ds_ajax_items_props env tc slug
            (it :: its) seen c
          cases hn : (ds_ajax_items env tc slug (it :: its) seen c).2.2.2 with
          | false =>
            refine ⟨[(page, (ds_ajax_items env tc slug (it :: its) seen c).1)], ?_, ?_, ?_, ?_⟩
            · simp [ds_ajax_loop, h, hr, hn, flattenSegs]
            · intro sg hsg
              rcases List.mem_singleton.mp hsg with rfl
              exact hnlc
            · intro i hi
              have : i = 0 := by simpa using Nat.lt_one_iff.mp (by simpa using hi)
              subst this
              simp
            · intro i hi
              simp at hi
          | true =>
            obtain ⟨segs, heq, hnl, hpg, hpr⟩ := ih
              (ds_ajax_items env tc slug (it :: its) seen c).2.1
              (ds_ajax_items env tc slug (it :: its) seen c).2.2.1 (page + 1)
            refine ⟨(page, (ds_ajax_items env tc slug (it :: its) seen c).1) :: segs,
              ?_, ?_, ?_, ?_⟩
            · show ds_ajax_loop env tc cid slug lid seen c page (fuel + 1) =
                (CrawlEv.listCall page :: (ds_ajax_items env tc slug (it :: its) seen c).1)
                  ++ flattenSegs segs
              rw [← heq]
              simp [ds_ajax_loop, h, hr, hn]
            · intro sg hsg
              rcases List.mem_cons.mp hsg with rfl | hsg2
              · exact hnlc
              · exact hnl sg hsg2
            · intro i hi
              cases i with
              | zero => simp
              | succ i2 =>
                have hi2 : i2 < segs.length := by simpa using hi
                have := hpg i2 hi2
                simp only [List.get_cons_succ]
                rw [show segs.get ⟨i2, by simpa using hi⟩ = segs.get ⟨i2, hi2⟩ from rfl]
                omega
            · intro i hi
              cases i with
              | zero =>
                exact hfetch hn
              | succ i2 =>
                have hi2 : i2 + 1 < segs.length := by simpa using hi
                exact hpr i2 hi2

/-- Segment decomposition of the KalerKantho pagination loop: consecutive
page list calls, per-item events between them, and every list call except
the last got a parseable, non-empty `newsData` response — after a fetch
failure, a JSON failure or an empty list, no further list calls happen in
that category. -/
theorem kk_cat_loop_segs (env : KKEnv) (category : String) :
    ∀ (fuel collected page : Nat),
      ∃ segs : List (Nat × List (CrawlEv KKDoc)),
        kk_cat_loop env category collected page fuel = flattenSegs segs ∧
        (∀ sg ∈ segs, noListCall sg.2 = true) ∧
        (∀ (i : Nat) (hi : i < segs.length), (segs.get ⟨i, hi⟩).1 = page + i) ∧
        (∀ i : Nat, i + 1 < segs.length →
          ∃ its, env.listResp category (page + i) = some its ∧ its ≠ []) := by
  intro fuel
  induction fuel with
  | zero =>
    intro c page
    exact ⟨[], rfl, by simp, by simp, by simp⟩
  | succ fuel ih =>
    intro c page
    by_cases h : kk_category_target ≤ c
    · exact ⟨[], by simp [kk_cat_loop, h, flattenSegs], by simp, by simp, by simp⟩
    · cases hr : env.listResp category page with
      | none =>
        refine ⟨[(page, [])], ?_, ?_, ?_, ?_⟩
        · simp [kk_cat_loop, h, hr, flattenSegs]
        · intro sg hsg
          rcases List.mem_singleton.mp hsg with rfl
          rfl
        · intro i hi
          have : i = 0 := by simpa using Nat.lt_one_iff.mp (by simpa using hi)
          subst this
          simp
        · intro i hi
          simp at hi
      | some items =>
        cases items with
        | nil =>
          refine ⟨[(page, [])], ?_, ?_, ?_, ?_⟩
          · simp [kk_cat_loop, h, hr, flattenSegs]
          · intro sg hsg
            rcases List.mem_singleton.mp hsg with rfl
            rfl
          · intro i hi
            have : i = 0 := by simpa using Nat.lt_one_iff.mp (by simpa using hi)
            subst this
            simp
          · intro i hi
            simp at hi
        | cons it its =>
          obtain ⟨segs, heq, hnl, hpg, hpr⟩ := ih
            (kk_items env category (it :: its) c).2 (page + 1)
          refine ⟨(page, (kk_items env category (it :: its) c).1) :: segs, ?_, ?_, ?_, ?_⟩
          · show kk_cat_loop env category c page (fuel + 1) =
              (CrawlEv.listCall page :: (kk_items env category (it :: its) c).1)
                ++ flattenSegs segs
            rw [← heq]
            simp [kk_cat_loop, h, hr]
          · intro sg hsg
            rcases List.mem_cons.mp hsg with rfl | hsg2
            · exact kk_items_noListCall env category (it :: its) c
            · exact hnl sg hsg2
          · intro i hi
            cases i with
            | zero => simp
            | succ i2 =>
              have hi2 : i2 < segs.length := by simpa using hi
              have := hpg i2 hi2
              simp only [List.get_cons_succ]
              rw [show segs.get ⟨i2, by simpa using hi⟩ = segs.get ⟨i2, hi2⟩ from rfl]
              omega
          · intro i hi
            cases i with
            | zero =>
              refine ⟨it :: its, ?_, by simp⟩
              simpa using hr
            | succ i2 =>
              have hi2 : i2 + 1 < segs.length := by simpa using hi
              obtain ⟨its2, h1, h2⟩ := hpr i2 hi2
              refine ⟨its2, ?_, h2⟩
              rw [show page + (i2 + 1) = page + 1 + i2 from by omega]
              exact h1

/-- Segment decomposition of the ProthomAlo API callback chain: API calls
at consecutive offsets (stepping by `limit`), only per-entry events
between them, and every API call except the last got a non-empty `items`
list — after an empty response (or the `max_items` early return, which
also skips the next request) no further API calls are issued. -/
theorem pa_api_loop_segs (max_items : Nat) (env : Nat → List PAEntry) :
    ∀ (fuel offset seen : Nat),
      ∃ segs : List (Nat × List PAEv),
        pa_api_loop max_items env offset seen fuel = paFlattenSegs segs ∧
        (∀ sg ∈ segs, ∀ o : Nat, PAEv.apiCall o ∉ sg.2) ∧
        (∀ (i : Nat) (hi : i < segs.length),
          (segs.get ⟨i, hi⟩).1 = offset + i * pa_limit) ∧
        (∀ i : Nat, i + 1 < segs.length → env (offset + i * pa_limit) ≠ []) := by
  intro fuel
  induction fuel with
  | zero =>
    intro offset seen
    exact ⟨[], rfl, by simp, by simp, by simp⟩
  | succ fuel ih =>
    intro offset seen
    by_cases he : env offset = []
    · refine ⟨[(offset, [])], ?_, ?_, ?_, ?_⟩
      · simp [pa_api_loop, he, paFlattenSegs]
      · intro sg hsg
        rcases List.mem_singleton.mp hsg with rfl
        simp
      · intro i hi
        have : i = 0 := by simpa using Nat.lt_one_iff.mp (by simpa using hi)
        subst this
        simp
      · intro i hi
        simp at hi
    · obtain ⟨_, _, hnoapi⟩ := pa_entries_props max_items (env offset) seen
      cases hstop : (pa_entries max_items (env offset) seen).2.2 with
      | true =>
        refine ⟨[(offset, (pa_entries max_items (env offset) seen).1)], ?_, ?_, ?_, ?_⟩
        · simp [pa_api_loop, he, hstop, paFlattenSegs]
        · intro sg hsg
          rcases List.mem_singleton.mp hsg with rfl
          exact hnoapi
        · intro i hi
          have : i = 0 := by simpa using Nat.lt_one_iff.mp (by simpa using hi)
          subst this
          simp
        · intro i hi
          simp at hi
      | false =>
        obtain ⟨segs, heq, hnl, hpg, hpr⟩ := ih (offset + pa_limit)
          (pa_entries max_items (env offset) seen).2.1
        refine ⟨(offset, (pa_entries max_items (env offset) seen).1) :: segs, ?_, ?_, ?_, ?_⟩
        · show pa_api_loop max_items env offset seen (fuel + 1) =
            (PAEv.apiCall offset :: (pa_entries max_items (env offset) seen).1)
              ++ paFlattenSegs segs
          rw [← heq]
          simp [pa_api_loop, he, hstop]
        · intro sg hsg
          rcases List.mem_cons.mp hsg with rfl | hsg2
          · exact hnoapi
          · exact hnl sg hsg2
        · intro i hi
          cases i with
          | zero => simp
          | succ i2 =>
            have hi2 : i2 < segs.length := by simpa using hi
            have := hpg i2 hi2
            simp only [List.get_cons_succ]
            rw [show segs.get ⟨i2, by simpa using hi⟩ = segs.get ⟨i2, hi2⟩ from rfl]
            rw [this]
            ring
        · intro i hi
          cases i with
          | zero =>
            simpa using he
          | succ i2 =>
            have hi2 : i2 + 1 < segs.length := by simpa using hi
            have := hpr i2 hi2
            rw [show offset + (i2 + 1) * pa_limit = offset + pa_limit + i2 * pa_limit from by
              ring]
            exact this

/-- C9 (confirmed). Pagination and cap termination for the three cited
adapters. DailySun: the AJAX trace decomposes into consecutive-page list
calls where every non-final list call produced at least one new
(non-duplicate) candidate — so once a list step yields zero new candidates
or the upstream response is missing/empty, no further list calls are
issued — and a whole category run dispatches a detail fetch only while
`category_collected < target_count`. KalerKantho: every non-final list
call got a parseable non-empty `newsData` batch, and detail fetches are
dispatched only below the per-category target. ProthomAlo: API calls step
through consecutive offsets, every non-final call got a non-empty `items`
list (both an empty response and the `max_items` early return end the
chain), and every entry is processed only while `items_seen < max_items`. -/
theorem c9_pagination_and_cap_termination :
    (∀ (env : DSEnv) (tc cid : Nat) (slug : String) (lid : Option Nat)
      (fuel : Nat) (seen : List String) (c page : Nat),
      ∃ segs : List (Nat × List (CrawlEv DSDoc)),
        ds_ajax_loop env tc cid slug lid seen c page fuel = flattenSegs segs ∧
        (∀ sg ∈ segs, noListCall sg.2 = true) ∧
        (∀ (i : Nat) (hi : i < segs.length), (segs.get ⟨i, hi⟩).1 = page + i) ∧
        (∀ (i : Nat) (hi : i + 1 < segs.length), ∃ u,
          CrawlEv.fetchEv u ∈ (segs.get ⟨i, Nat.lt_of_succ_lt hi⟩).2)) ∧
    (∀ (env : DSEnv) (target_count : Nat) (cat_url : String) (fuel : Nat),
      fetchBelow target_count 0 (ds_category env target_count cat_url fuel) = true) ∧
    (∀ (env : KKEnv) (category : String) (fuel collected page : Nat),
      ∃ segs : List (Nat × List (CrawlEv KKDoc)),
        kk_cat_loop env category collected page fuel = flattenSegs segs ∧
        (∀ sg ∈ segs, noListCall sg.2 = true) ∧
        (∀ (i : Nat) (hi : i < segs.length), (segs.get ⟨i, hi⟩).1 = page + i) ∧
        (∀ i : Nat, i + 1 < segs.length →
          ∃ its, env.listResp category (page + i) = some its ∧ its ≠ [])) ∧
    (∀ (env : KKEnv) (category : String) (fuel : Nat),
      fetchBelow kk_category_target 0 (kk_cat_loop env category 0 1 fuel) = true) ∧
    (∀ (max_items : Nat) (env : Nat → List PAEntry) (fuel offset seen : Nat),
      ∃ segs : List (Nat × List PAEv),
        pa_api_loop max_items env offset seen fuel = paFlattenSegs segs ∧
        (∀ sg ∈ segs, ∀ o : Nat, PAEv.apiCall o ∉ sg.2) ∧
        (∀ (i : Nat) (hi : i < segs.length),
          (segs.get ⟨i, hi⟩).1 = offset + i * pa_limit) ∧
        (∀ i : Nat, i + 1 < segs.length → env (offset + i * pa_limit) ≠ [])) ∧
    (∀ (max_items : Nat) (env : Nat → List PAEntry) (fuel offset seen : Nat),
      paItemsBelow max_items seen (pa_api_loop max_items env offset seen fuel) = true) := by
  refine ⟨?_, ?_, ?_, ?_, ?_, ?_⟩
  · intro env tc cid slug lid fuel seen c page
    exact ds_ajax_loop_segs env tc cid slug lid fuel seen c page
  · intro env tc cu fuel
    exact ds_category_fetchBelow env tc cu fuel
  · intro env category fuel c page
    exact kk_cat_loop_segs env category fuel c page
  · intro env category fuel
    exact kk_cat_loop_fetchBelow env category fuel 0 1
  · intro m env fuel offset seen
    exact pa_api_loop_segs m env fuel offset seen
  · intro m env fuel offset seen
    exact pa_api_loop_itemsBelow m env fuel offset seen

/-- Witness for C9: the demo worlds of the three adapters. -/
theorem c9_witness :
    (∃ segs : List (Nat × List (CrawlEv DSDoc)),
      ds_ajax_loop dsEnvW 150 26 "sports" (some 99) [] 0 1 3 = flattenSegs segs ∧
      (∀ sg ∈ segs, noListCall sg.2 = true) ∧
      (∀ (i : Nat) (hi : i < segs.length), (segs.get ⟨i, hi⟩).1 = 1 + i) ∧
      (∀ (i : Nat) (hi : i + 1 < segs.length), ∃ u,
        CrawlEv.fetchEv u ∈ (segs.get ⟨i, Nat.lt_of_succ_lt hi⟩).2)) ∧
    fetchBelow 150 0 (ds_category dsEnvW 150 "https://www.daily-sun.com/sports" 3) = true ∧
    (∃ segs : List (Nat × List (CrawlEv KKDoc)),
      kk_cat_loop kkEnvA "national" 0 1 2 = flattenSegs segs ∧
      (∀ sg ∈ segs, noListCall sg.2 = true) ∧
      (∀ (i : Nat) (hi : i < segs.length), (segs.get ⟨i, hi⟩).1 = 1 + i) ∧
      (∀ i : Nat, i + 1 < segs.length →
        ∃ its, kkEnvA.listResp "national" (1 + i) = some its ∧ its ≠ [])) ∧
    fetchBelow kk_category_target 0 (kk_cat_loop kkEnvA "national" 0 1 2) = true ∧
    (∃ segs : List (Nat × List PAEv),
      pa_api_loop 500 paEnvW 0 0 3 = paFlattenSegs segs ∧
      (∀ sg ∈ segs, ∀ o : Nat, PAEv.apiCall o ∉ sg.2) ∧
      (∀ (i : Nat) (hi : i < segs.length), (segs.get ⟨i, hi⟩).1 = 0 + i * pa_limit) ∧
      (∀ i : Nat, i + 1 < segs.length → paEnvW (0 + i * pa_limit) ≠ [])) ∧
    paItemsBelow 500 0 (pa_api_loop 500 paEnvW 0 0 3) = true :=
  ⟨c9_pagination_and_cap_termination.1 dsEnvW 150 26 "sports" (some 99) 3 [] 0 1,
   c9_pagination_and_cap_termination.2.1 dsEnvW 150 "https://www.daily-sun.com/sports" 3,
   c9_pagination_and_cap_termination.2.2.1 kkEnvA "national" 2 0 1,
   c9_pagination_and_cap_termination.2.2.2.1 kkEnvA "national" 2,
   c9_pagination_and_cap_termination.2.2.2.2.1 500 paEnvW 3 0 0,
   c9_pagination_and_cap_termination.2.2.2.2.2 500 paEnvW 3 0 0⟩
